import Mathlib

/-!
# Temperature converter (`script.js`): model and verified properties

The script is browser JavaScript.  The embedding keeps its functions and handlers by
name and makes the platform explicit:

* **Numbers** are IEEE-754 binary64 values.  A finite value is the rational number it
  denotes, and every arithmetic operation rounds the exact result to the nearest
  representable value (ties to even), with gradual underflow and overflow to an infinity.
  The two zeros are identified: the script never divides by a computed zero and every
  printing routine it uses prints both zeros alike.
* **Built-ins** (`Number(text)`, `trim`, `toString`, `toFixed`, `Math.round`, `Math.min`,
  `Math.max`, `Number.isInteger`, `Number.isNaN`) follow ECMA-262.
* **The page** is a record of the DOM properties the script reads and writes, each a plain
  cell holding what was last assigned, together with the item `temp_last` of the local
  storage and the list of pending animation frame callbacks.  The storage holds the JSON
  record the script wrote; `setItem` is taken to succeed.
* **Time** is the argument `now` of the handlers and of the frame callbacks.

The handlers for the swap and clear buttons and for live typing are not needed by the
properties below and are left out.
-/

namespace Script

/-! ## JavaScript numbers -/

/-- A JavaScript Number: NaN, the two infinities, or a finite value. -/
inductive JSNum where
  | nan : JSNum
  | pinf : JSNum
  | ninf : JSNum
  | fin (q : ℚ) : JSNum
  deriving DecidableEq

instance : OfNat JSNum n := ⟨JSNum.fin (n : ℚ)⟩

/-- The power `2 ^ e` for an integer exponent. -/
def pow2 (e : Int) : ℚ :=
  if 0 ≤ e then ((2 ^ e.toNat : Nat) : ℚ) else 1 / ((2 ^ (-e).toNat : Nat) : ℚ)

/-- Nearest integer, ties to the even neighbour. -/
def roundEven (x : ℚ) : Int :=
  let f := ⌊x⌋
  let r := x - f
  if r < 1 / 2 then f else if 1 / 2 < r then f + 1 else if f % 2 = 0 then f else f + 1

/-- Number of binary digits of `n`, by halving at most `fuel` times. -/
def bitLen : Nat → Nat → Nat
  | 0, _ => 0
  | fuel + 1, n => if n = 0 then 0 else bitLen fuel (n / 2) + 1

/-- The binary exponent of a nonzero rational: the `e` with `2 ^ e ≤ |q| < 2 ^ (e + 1)`. -/
def ilog2 (q : ℚ) : Int :=
  let e : Int := (bitLen q.num.natAbs q.num.natAbs : Int) - (bitLen q.den q.den : Int)
  if pow2 e ≤ |q| then e else e - 1

/-- Round a rational to 53 significant bits, ties to even, with the binary64 subnormal
grid below `2 ^ (-1022)` and no bound on the exponent above. -/
def rq (q : ℚ) : ℚ :=
  if q = 0 then 0
  else
    let e := max (ilog2 q) (-1022) - 52
    (roundEven (q / pow2 e) : ℚ) * pow2 e

/-- The overflow threshold `2 ^ 1024` of binary64. -/
@[irreducible] def overflowBound : ℚ := pow2 1024

/-- Round an exact result to a Number: a rounded magnitude of `2 ^ 1024` or more
overflows to the infinity of its sign. -/
def round64 (q : ℚ) : JSNum :=
  let r := rq q
  if overflowBound ≤ r then JSNum.pinf
  else if r ≤ -overflowBound then JSNum.ninf
  else JSNum.fin r

/-- A finite value is a binary64 value when rounding leaves it unchanged. -/
def IsDouble : JSNum → Prop
  | JSNum.fin q => round64 q = JSNum.fin q
  | _ => True

instance (x : JSNum) : Decidable (IsDouble x) := by
  cases x <;> unfold IsDouble <;> infer_instance

/-- Unary minus. -/
def neg : JSNum → JSNum
  | JSNum.nan => JSNum.nan
  | JSNum.pinf => JSNum.ninf
  | JSNum.ninf => JSNum.pinf
  | JSNum.fin q => JSNum.fin (-q)

/-- The `+` operator on Numbers. -/
def add : JSNum → JSNum → JSNum
  | JSNum.nan, _ => JSNum.nan
  | _, JSNum.nan => JSNum.nan
  | JSNum.pinf, JSNum.ninf => JSNum.nan
  | JSNum.ninf, JSNum.pinf => JSNum.nan
  | JSNum.pinf, _ => JSNum.pinf
  | JSNum.ninf, _ => JSNum.ninf
  | _, JSNum.pinf => JSNum.pinf
  | _, JSNum.ninf => JSNum.ninf
  | JSNum.fin a, JSNum.fin b => round64 (a + b)

/-- The binary `-` operator: IEEE subtraction is addition of the negated operand. -/
def sub (a b : JSNum) : JSNum := add a (neg b)

/-- The infinity carrying the sign of `s * t` for nonzero `s`, `t`. -/
def infOfSign (positive : Bool) : JSNum := if positive then JSNum.pinf else JSNum.ninf

/-- The `*` operator on Numbers. -/
def mul : JSNum → JSNum → JSNum
  | JSNum.nan, _ => JSNum.nan
  | _, JSNum.nan => JSNum.nan
  | JSNum.pinf, JSNum.pinf => JSNum.pinf
  | JSNum.pinf, JSNum.ninf => JSNum.ninf
  | JSNum.ninf, JSNum.pinf => JSNum.ninf
  | JSNum.ninf, JSNum.ninf => JSNum.pinf
  | JSNum.pinf, JSNum.fin b => if b = 0 then JSNum.nan else infOfSign (decide (0 < b))
  | JSNum.ninf, JSNum.fin b => if b = 0 then JSNum.nan else infOfSign (decide (b < 0))
  | JSNum.fin a, JSNum.pinf => if a = 0 then JSNum.nan else infOfSign (decide (0 < a))
  | JSNum.fin a, JSNum.ninf => if a = 0 then JSNum.nan else infOfSign (decide (a < 0))
  | JSNum.fin a, JSNum.fin b => round64 (a * b)

/-- The `/` operator on Numbers.  A zero divisor is read as `+0`. -/
def div : JSNum → JSNum → JSNum
  | JSNum.nan, _ => JSNum.nan
  | _, JSNum.nan => JSNum.nan
  | JSNum.fin _, JSNum.pinf => JSNum.fin 0
  | JSNum.fin _, JSNum.ninf => JSNum.fin 0
  | JSNum.fin a, JSNum.fin b =>
      if b = 0 then (if a = 0 then JSNum.nan else infOfSign (decide (0 < a)))
      else round64 (a / b)
  | JSNum.pinf, JSNum.fin b => infOfSign (decide (0 ≤ b))
  | JSNum.ninf, JSNum.fin b => infOfSign (decide (b < 0))
  | _, _ => JSNum.nan

/-- The `<` operator on Numbers (false when either side is NaN). -/
def lt : JSNum → JSNum → Bool
  | JSNum.nan, _ => false
  | _, JSNum.nan => false
  | JSNum.pinf, _ => false
  | _, JSNum.ninf => false
  | JSNum.ninf, _ => true
  | _, JSNum.pinf => true
  | JSNum.fin a, JSNum.fin b => decide (a < b)

/-- Strict equality `===` on Numbers (NaN differs from itself). -/
def strictEq : JSNum → JSNum → Bool
  | JSNum.nan, _ => false
  | _, JSNum.nan => false
  | a, b => decide (a = b)

/-- A decimal literal of the source text, correctly rounded. -/
def lit (q : ℚ) : JSNum := round64 q

/-! ## Unit conversion (`script.js` lines 18-32) -/

/-- The function `toCelsius(value, unit)`; `none` is the `undefined` a `switch` without a
matching case returns. -/
def toCelsius (value : JSNum) (unit : String) : Option JSNum :=
  if unit = "C" then some value
  else if unit = "F" then some (div (mul (sub value 32) 5) 9)
  else if unit = "K" then some (sub value (lit (27315 / 100)))
  else none

/-- The function `fromCelsius(celsius, unit)`. -/
def fromCelsius (celsius : JSNum) (unit : String) : Option JSNum :=
  if unit = "C" then some celsius
  else if unit = "F" then some (add (div (mul celsius 9) 5) 32)
  else if unit = "K" then some (add celsius (lit (27315 / 100)))
  else none

/-- The composition `fromCelsius(toCelsius(v, from), to)` of lines 96-97. -/
def convert (v : JSNum) (src dst : String) : Option JSNum :=
  (toCelsius v src).bind (fun celsius => fromCelsius celsius dst)

/-! ## Built-in predicates and `Math` functions -/

/-- The predicate `Number.isNaN`. -/
def isNaN : JSNum → Bool
  | JSNum.nan => true
  | _ => false

/-- The predicate `Number.isInteger`: finite with an integral value. -/
def isInteger : JSNum → Bool
  | JSNum.fin q => decide (q.den = 1)
  | _ => false

/-- The function `Math.round`: the nearest integer, ties towards `+∞`. -/
def mathRound : JSNum → JSNum
  | JSNum.fin q => JSNum.fin (⌊q + 1 / 2⌋ : Int)
  | x => x

/-- The function `Math.min` of two arguments. -/
def mathMin : JSNum → JSNum → JSNum
  | JSNum.nan, _ => JSNum.nan
  | _, JSNum.nan => JSNum.nan
  | a, b => if lt b a then b else a

/-- The function `Math.max` of two arguments. -/
def mathMax : JSNum → JSNum → JSNum
  | JSNum.nan, _ => JSNum.nan
  | _, JSNum.nan => JSNum.nan
  | a, b => if lt a b then b else a

/-! ## Number to string -/

/-- The power `10 ^ e` for an integer exponent. -/
def pow10 (e : Int) : ℚ :=
  if 0 ≤ e then ((10 ^ e.toNat : Nat) : ℚ) else 1 / ((10 ^ (-e).toNat : Nat) : ℚ)

/-- The character of a decimal digit. -/
def digitChar (d : Nat) : Char := Char.ofNat (48 + d)

/-- Worker of `natDigits`: prepend the digits of `n` to `acc`. -/
def natDigitsAux : Nat → Nat → List Char → List Char
  | 0, _, acc => acc
  | fuel + 1, n, acc =>
      if n < 10 then digitChar n :: acc
      else natDigitsAux fuel (n / 10) (digitChar (n % 10) :: acc)

/-- Decimal digits of a natural number, most significant first. -/
def natDigits (n : Nat) : List Char := natDigitsAux (n + 1) n []

/-- Number of decimal digits of `n` (`0` for `0`), by dividing at most `fuel` times. -/
def decLen : Nat → Nat → Nat
  | 0, _ => 0
  | fuel + 1, n => if n = 0 then 0 else decLen fuel (n / 10) + 1

/-- The decimal exponent `n` of a positive rational: `10 ^ (n - 1) ≤ x < 10 ^ n`. -/
def decExp (x : ℚ) : Int :=
  let d : Int := (decLen x.num.natAbs x.num.natAbs : Int) - (decLen x.den x.den : Int)
  if pow10 d ≤ x then d + 1 else d

/-- The `k`-digit decimal significands next to `x` that convert back to `x`, as
`(s, k, n)` with value `s * 10 ^ (n - k)`; of two, the closer one (the even one on a tie). -/
def digitsAt (x : ℚ) (n0 : Int) (k : Nat) : Option (Nat × Nat × Int) :=
  let scale := pow10 (n0 - k)
  let lo := ⌊x / scale⌋.toNat
  let hi := lo + 1
  let okLo := decide (round64 (lo * scale) = JSNum.fin x)
  let okHi := decide (round64 (hi * scale) = JSNum.fin x)
  let up : Option (Nat × Nat × Int) := if hi = 10 ^ k then some (1, 1, n0 + 1) else some (hi, k, n0)
  if okLo && okHi then
    (if x - lo * scale < hi * scale - x then some (lo, k, n0)
     else if hi * scale - x < x - lo * scale then up
     else if lo % 2 = 0 then some (lo, k, n0) else up)
  else if okLo then some (lo, k, n0)
  else if okHi then up
  else none

/-- Search for the shortest significand, trying `k`, `k + 1`, ... for `fuel` lengths. -/
def shortestFrom (x : ℚ) (n0 : Int) : Nat → Nat → Option (Nat × Nat × Int)
  | 0, _ => none
  | fuel + 1, k =>
      match digitsAt x n0 k with
      | some r => some r
      | none => shortestFrom x n0 fuel (k + 1)

/-- The integers `s`, `k`, `n` of `Number::toString` for a positive `x`: the fewest
digits `k` such that `s * 10 ^ (n - k)` converts back to `x`.  Seventeen digits always
identify a binary64 value; the nearest 17-digit significand is the fallback. -/
def shortestDigits (x : ℚ) : Nat × Nat × Int :=
  let n0 := decExp x
  match shortestFrom x n0 17 1 with
  | some r => r
  | none => (⌊x / pow10 (n0 - 17) + 1 / 2⌋.toNat, 17, n0)

/-- The text of `Number::toString` for a positive finite value. -/
def posToString (x : ℚ) : List Char :=
  match shortestDigits x with
  | (s, k, n) =>
    let ds := natDigits s
    if (k : Int) ≤ n ∧ n ≤ 21 then ds ++ List.replicate (n - k).toNat '0'
    else if 0 < n ∧ n ≤ 21 then ds.take n.toNat ++ '.' :: ds.drop n.toNat
    else if -6 < n ∧ n ≤ 0 then '0' :: '.' :: (List.replicate (-n).toNat '0' ++ ds)
    else
      let e := n - 1
      let es := (if 0 ≤ e then '+' else '-') :: natDigits e.natAbs
      if k = 1 then ds ++ 'e' :: es else ds.take 1 ++ '.' :: (ds.drop 1 ++ 'e' :: es)

/-- The method `Number.prototype.toString()` (radix 10), as a list of characters. -/
def numberToChars : JSNum → List Char
  | JSNum.nan => "NaN".data
  | JSNum.pinf => "Infinity".data
  | JSNum.ninf => "-Infinity".data
  | JSNum.fin q =>
      if q = 0 then ['0'] else if q < 0 then '-' :: posToString (-q) else posToString q

/-- The method `Number.prototype.toString()` (radix 10). -/
def numberToString (x : JSNum) : String := String.mk (numberToChars x)

/-- The method `Number.prototype.toFixed(f)`, as a list of characters. -/
def toFixedChars (x : JSNum) (f : Nat) : List Char :=
  match x with
  | JSNum.fin q =>
      if (10 : ℚ) ^ 21 ≤ |q| then numberToChars x
      else
        let n := ⌊|q| * (10 : ℚ) ^ f + 1 / 2⌋.toNat
        let m := natDigits n
        let m := List.replicate (f + 1 - m.length) '0' ++ m
        let m := if f = 0 then m else m.take (m.length - f) ++ '.' :: m.drop (m.length - f)
        if q < 0 then '-' :: m else m
  | _ => numberToChars x

/-- The method `Number.prototype.toFixed(f)`. -/
def toFixed (x : JSNum) (f : Nat) : String := String.mk (toFixedChars x f)

/-- The function `formatNumber(n)` (lines 34-37). -/
def formatNumber (n : JSNum) : String :=
  if isInteger n then numberToString n else toFixed n 2

/-! ## String to number -/

/-- The code points of `WhiteSpace` and `LineTerminator`, which `trim` and `Number` strip. -/
def isWhite (c : Char) : Bool :=
  let n := c.toNat
  n = 9 || n = 10 || n = 11 || n = 12 || n = 13 || n = 32 || n = 160 || n = 5760 ||
  (8192 ≤ n && n ≤ 8202) || n = 8232 || n = 8233 || n = 8239 || n = 8287 || n = 12288 ||
  n = 65279

/-- The method `String.prototype.trim`, on character lists. -/
def trimChars (cs : List Char) : List Char :=
  ((cs.dropWhile isWhite).reverse.dropWhile isWhite).reverse

/-- The method `String.prototype.trim`. -/
def jsTrim (s : String) : String := String.mk (trimChars s.data)

/-- The value of a digit character in the given radix. -/
def digitValue (radix : Nat) (c : Char) : Option Nat :=
  let n := c.toNat
  let v : Option Nat :=
    if 48 ≤ n ∧ n ≤ 57 then some (n - 48)
    else if 97 ≤ n ∧ n ≤ 102 then some (n - 87)
    else if 65 ≤ n ∧ n ≤ 70 then some (n - 55)
    else none
  match v with
  | some d => if d < radix then some d else none
  | none => none

/-- Read the longest run of digits: the value read so far, the number of digits read, and
the unread rest. -/
def readDigits (radix : Nat) : List Char → Nat → Nat → Nat × Nat × List Char
  | [], acc, cnt => (acc, cnt, [])
  | c :: cs, acc, cnt =>
      match digitValue radix c with
      | some d => readDigits radix cs (acc * radix + d) (cnt + 1)
      | none => (acc, cnt, c :: cs)

/-- An optional `ExponentPart` that must reach the end of the text: the exponent, or
`none` when the rest is not of that form. -/
def readExponent (cs : List Char) : Option Int :=
  match cs with
  | [] => some 0
  | c :: rest =>
      if c = 'e' ∨ c = 'E' then
        let (negative, ds) : Bool × List Char :=
          match rest with
          | '+' :: r => (false, r)
          | '-' :: r => (true, r)
          | r => (false, r)
        match readDigits 10 ds 0 0 with
        | (v, cnt, []) => if cnt = 0 then none else some (if negative then -(v : Int) else v)
        | _ => none
      else none

/-- The mathematical value of a `StrUnsignedDecimalLiteral` other than `Infinity`. -/
def readUnsignedDecimal (cs : List Char) : Option ℚ :=
  match readDigits 10 cs 0 0 with
  | (ip, icnt, rest) =>
    let (fp, fcnt, rest2) : Nat × Nat × List Char :=
      match rest with
      | '.' :: r => readDigits 10 r 0 0
      | r => (0, 0, r)
    if icnt = 0 ∧ fcnt = 0 then none
    else
      match readExponent rest2 with
      | some e => some (((ip * 10 ^ fcnt + fp : Nat) : ℚ) * pow10 (e - fcnt))
      | none => none

/-- The Number denoted by a `StrUnsignedDecimalLiteral`. -/
def readUnsigned (cs : List Char) : JSNum :=
  if cs = "Infinity".data then JSNum.pinf
  else match readUnsignedDecimal cs with
    | some q => round64 q
    | none => JSNum.nan

/-- A `NonDecimalIntegerLiteral` body: at least one digit and nothing after. -/
def readRadix (radix : Nat) (cs : List Char) : JSNum :=
  match readDigits radix cs 0 0 with
  | (v, cnt, []) => if cnt = 0 then JSNum.nan else round64 v
  | _ => JSNum.nan

/-- The abstract operation `StringToNumber` on an already trimmed text. -/
def readNumeric (cs : List Char) : JSNum :=
  match cs with
  | [] => 0
  | '0' :: 'x' :: r => readRadix 16 r
  | '0' :: 'X' :: r => readRadix 16 r
  | '0' :: 'o' :: r => readRadix 8 r
  | '0' :: 'O' :: r => readRadix 8 r
  | '0' :: 'b' :: r => readRadix 2 r
  | '0' :: 'B' :: r => readRadix 2 r
  | '+' :: r => readUnsigned r
  | '-' :: r => neg (readUnsigned r)
  | r => readUnsigned r

/-- The conversion `Number(text)` of a string. -/
def stringToNumber (s : String) : JSNum := readNumeric (trimChars s.data)

/-! ## The page state and the handlers of `script.js` -/

/-- The JSON record `JSON.stringify` writes under the key `temp_last`; a Number that is
not finite is serialised as `null` (`none`). -/
structure SavedState where
  value : Option JSNum
  fromU : String
  toU : String
  live : Bool
  deriving DecidableEq

/-- A pending `requestAnimationFrame(step)` callback of `animateNumber`: the closure
variables `start`, `from`, `to` and `duration`. -/
structure Anim where
  start : JSNum
  src : JSNum
  dst : JSNum
  duration : JSNum
  deriving DecidableEq

/-- The state the script reads and writes.  Each DOM property is a plain cell holding
what was last assigned; the local storage holds what the script stored, and `setItem` is
taken to succeed. -/
structure Dom where
  /-- The property `input.value`. -/
  input : String
  /-- The property `fromUnit.value`. -/
  fromUnit : String
  /-- The property `toUnit.value`. -/
  toUnit : String
  /-- The property `message.textContent`. -/
  message : String
  /-- The property `result.textContent`. -/
  result : String
  /-- The property `range.value`. -/
  rangeValue : String
  /-- The property `range.min`. -/
  rangeMin : String
  /-- The property `range.max`. -/
  rangeMax : String
  /-- The property `liveToggle.checked`. -/
  liveToggle : Bool
  /-- The property `resultValue.textContent`. -/
  resultValue : String
  /-- The property `resultUnit.textContent`. -/
  resultUnit : String
  /-- The property `resultNote.textContent`. -/
  resultNote : String
  /-- The property `thermFill.style.height`. -/
  thermHeight : String
  /-- The property `thermFill.style.background`. -/
  thermBackground : String
  /-- Whether `input.focus()` was called. -/
  inputFocused : Bool
  /-- The item `temp_last` of the local storage. -/
  store : Option SavedState
  /-- The callbacks waiting for the next animation frame. -/
  frames : List Anim
  deriving DecidableEq

/-- The function `unitLabel(u)` (lines 166-172); `none` is `undefined`. -/
def unitLabel (u : String) : Option String :=
  if u = "C" then some "°C"
  else if u = "F" then some "°F"
  else if u = "K" then some "K"
  else none

/-- Assignment of a possibly `undefined` value to `textContent` (it stores the empty
text for `undefined`). -/
def textContentOf : Option String → String
  | some s => s
  | none => ""

/-- Interpolation of a possibly `undefined` value in a template literal. -/
def interpolate : Option String → String
  | some s => s
  | none => "undefined"

/-- Conversion `ToNumber` of a possibly `undefined` Number (`undefined` gives NaN). -/
def toNumber : Option JSNum → JSNum
  | some x => x
  | none => JSNum.nan

/-- The quadratic ease of line 44: `t<.5 ? 2*t*t : -1 + (4 - 2*t)*t`. -/
def eased (t : JSNum) : JSNum :=
  if lt t (lit (1 / 2)) then mul (mul 2 t) t
  else add (JSNum.fin (-1)) (mul (sub 4 (mul 2 t)) t)

/-- Progress of an animation at time `now`: `Math.min((now - start) / duration, 1)`. -/
def progress (a : Anim) (now : JSNum) : JSNum :=
  mathMin (div (sub now a.start) a.duration) 1

/-- The interpolated value of line 45: `from + (to - from) * eased`. -/
def frameValue (a : Anim) (now : JSNum) : JSNum :=
  add a.src (mul (sub a.dst a.src) (eased (progress a now)))

/-- The text line 46 writes to `resultValue`. -/
def frameText (a : Anim) (now : JSNum) : String :=
  if isInteger a.dst && strictEq (progress a now) 1
  then formatNumber (mathRound (frameValue a now))
  else formatNumber (frameValue a now)

/-- Whether line 47 requests another frame: `t < 1`. -/
def frameAgain (a : Anim) (now : JSNum) : Bool := lt (progress a now) 1

/-- One call of the callback `step(now)` of `animateNumber` (lines 42-48). -/
def step (a : Anim) (now : JSNum) (d : Dom) : Dom :=
  { d with resultValue := frameText a now,
           frames := d.frames ++ (if frameAgain a now then [a] else []) }

/-- The browser running the animation frame callbacks at time `now`: the pending list is
emptied and each callback is called once. -/
def runFrames (d : Dom) (now : JSNum) : Dom :=
  d.frames.foldl (fun acc a => step a now acc) { d with frames := [] }

/-- The function `animateNumber(from, to, duration)` (lines 40-50), called at time `now`:
it records `start` and requests the first frame.  Both call sites leave `duration` to its
default `700`. -/
def animateNumber (d : Dom) (src dst duration now : JSNum) : Dom :=
  { d with frames := d.frames ++ [{ start := now, src := src, dst := dst, duration := duration }] }

/-- The clamped fraction of line 55:
`Math.max(0, Math.min(1, (celsius - min) / (max - min)))` with `min = -30`, `max = 50`. -/
def thermPct (celsius : JSNum) : JSNum :=
  mathMax 0 (mathMin 1 (div (sub celsius (JSNum.fin (-30))) (sub 50 (JSNum.fin (-30)))))

/-- The fill percentage of line 56: `Math.round(pct * 100)`. -/
def fillPercent (celsius : JSNum) : JSNum := mathRound (mul (thermPct celsius) 100)

/-- A colour channel of lines 60-62: `Math.round(cold + (hot - cold) * pct)`. -/
def channel (cold hot pct : JSNum) : String :=
  numberToString (mathRound (add cold (mul (sub hot cold) pct)))

/-- The function `setThermVisual(celsius)` (lines 52-64). -/
def setThermVisual (d : Dom) (celsius : JSNum) : Dom :=
  let pct := thermPct celsius
  let r := channel 0 255 pct
  let g := channel 160 69 pct
  let b := channel 255 0 pct
  { d with
    thermHeight := numberToString (fillPercent celsius) ++ "%",
    thermBackground := "linear-gradient(180deg,rgb(" ++ r ++ "," ++ g ++ "," ++ b ++
      "), rgba(" ++ r ++ "," ++ g ++ "," ++ b ++ ",0.85))" }

/-- The function `showError(msg)` (lines 66-69). -/
def showError (d : Dom) (msg : String) : Dom := { d with message := msg, result := "" }

/-- The function `clearError()` (line 71). -/
def clearError (d : Dom) : Dom := { d with message := "" }

/-- The call `input.focus()`. -/
def focusInput (d : Dom) : Dom := { d with inputFocused := true }

/-- The expression `x || 0` on a Number: NaN and zero are falsy. -/
def orZero (x : JSNum) : JSNum := if x = JSNum.nan ∨ x = 0 then 0 else x

/-- Serialisation of a Number by `JSON.stringify`: `null` unless finite. -/
def jsonNumber : JSNum → Option JSNum
  | JSNum.fin q => some (JSNum.fin q)
  | _ => none

/-- The statement of line 103, `localStorage.setItem('temp_last', JSON.stringify(...))`. -/
def persist (d : Dom) (value : JSNum) (src dst : String) : Dom :=
  { d with store := some { value := jsonNumber value, fromU := src, toU := dst,
                           live := d.liveToggle } }

/-- The message of the missing-value error. -/
def missingValueMsg : String := "Please enter a temperature value."

/-- The message of the invalid-number error. -/
def invalidNumberMsg : String := "Invalid number. Please enter a numeric value."

/-- The `submit` handler of the form (lines 73-104), run at time `now`. -/
def submit (d : Dom) (now : JSNum) : Dom :=
  let d := clearError d
  let raw := jsTrim d.input
  if raw = "" then focusInput (showError d missingValueMsg)
  else
    let value := stringToNumber raw
    if isNaN value then focusInput (showError d invalidNumberMsg)
    else
      let src := d.fromUnit
      let dst := d.toUnit
      if src = dst then
        let d := animateNumber d (orZero (stringToNumber d.resultValue)) value 700 now
        let d := { d with resultUnit := textContentOf (unitLabel dst) }
        let d := { d with resultNote :=
          "No conversion needed (" ++ interpolate (unitLabel src) ++ ")" }
        setThermVisual d (toNumber (toCelsius value src))
      else
        let celsius := toNumber (toCelsius value src)
        let converted := toNumber (fromCelsius celsius dst)
        let d := animateNumber d (orZero (stringToNumber d.resultValue)) converted 700 now
        let d := { d with resultUnit := textContentOf (unitLabel dst) }
        let d := { d with resultNote :=
          "Converted from " ++ formatNumber value ++ " " ++ interpolate (unitLabel src) }
        let d := setThermVisual d celsius
        persist d value src dst

/-- The function `adjustRangeForUnit(unit)` (lines 139-149). -/
def adjustRangeForUnit (d : Dom) (unit : String) : Dom :=
  let d := if unit = "C" then
    { d with rangeMin := numberToString (JSNum.fin (-50)), rangeMax := numberToString 80 }
    else d
  let d := if unit = "F" then
    { d with rangeMin := numberToString (JSNum.fin (-58)), rangeMax := numberToString 176 }
    else d
  let d := if unit = "K" then
    { d with rangeMin := numberToString 0, rangeMax := numberToString 353 }
    else d
  let d := if lt (stringToNumber d.rangeValue) (stringToNumber d.rangeMin)
    then { d with rangeValue := d.rangeMin } else d
  let d := if lt (stringToNumber d.rangeMax) (stringToNumber d.rangeValue)
    then { d with rangeValue := d.rangeMax } else d
  { d with input := d.rangeValue }

/-- Assignment of a parsed JSON number or `null` to `input.value` (`null` stores the
empty text). -/
def inputValueOf : Option JSNum → String
  | some x => numberToString x
  | none => ""

/-- The start-up block that restores the last state (lines 151-164). -/
def restore (d : Dom) : Dom :=
  match d.store with
  | some last =>
      let d := { d with input := inputValueOf last.value }
      let d := { d with fromUnit := last.fromU }
      let d := { d with toUnit := last.toU }
      let d := { d with liveToggle := last.live }
      let d := adjustRangeForUnit d d.fromUnit
      { d with rangeValue := d.input }
  | none => adjustRangeForUnit d d.fromUnit



/-- The Number is `-∞` or a finite value at most `r`. -/
def AtMost (x : JSNum) (r : ℚ) : Prop :=
  match x with
  | JSNum.ninf => True
  | JSNum.fin a => a ≤ r
  | _ => False

/-- The Number is `+∞` or a finite value at least `r`. -/
def AtLeast (x : JSNum) (r : ℚ) : Prop :=
  match x with
  | JSNum.pinf => True
  | JSNum.fin a => r ≤ a
  | _ => False

/-- The clamp of the specification, `clamp(x, lo, hi)`. -/
def clamp (x lo hi : JSNum) : JSNum := mathMax lo (mathMin hi x)

/-- The fill percentage as the specification words it:
`round(clamp((c + 30) / 80, 0, 1) * 100)`. -/
def fillSpec (c : JSNum) : JSNum := mathRound (mul (clamp (div (add c 30) 80) 0 1) 100)

/-- A decimal digit character. -/
def isDigitChar (c : Char) : Bool := decide (48 ≤ c.toNat ∧ c.toNat ≤ 57)

/-- The text is an optional minus sign followed by one or more digits: a rendering
without decimals. -/
def NoDecimals (s : String) : Prop :=
  ∃ sign ds : List Char, s.data = sign ++ ds ∧ (sign = [] ∨ sign = ['-']) ∧ ds ≠ [] ∧
    ∀ c ∈ ds, isDigitChar c = true

/-- The text is an optional minus sign, one or more digits, a point and exactly two
digits: a rendering with exactly two decimal places. -/
def TwoDecimals (s : String) : Prop :=
  ∃ (sign ds : List Char) (f1 f2 : Char), s.data = sign ++ ds ++ ['.', f1, f2] ∧
    (sign = [] ∨ sign = ['-']) ∧ ds ≠ [] ∧ (∀ c ∈ ds, isDigitChar c = true) ∧
    isDigitChar f1 = true ∧ isDigitChar f2 = true

/-! ## Exact-arithmetic reading of the conversion and error tracking -/

/-- The formulas of `toCelsius` read in exact rational arithmetic. -/
def toCelsiusExact (value : ℚ) (unit : String) : Option ℚ :=
  if unit = "C" then some value
  else if unit = "F" then some ((value - 32) * 5 / 9)
  else if unit = "K" then some (value - 27315 / 100)
  else none

/-- The formulas of `fromCelsius` read in exact rational arithmetic. -/
def fromCelsiusExact (celsius : ℚ) (unit : String) : Option ℚ :=
  if unit = "C" then some celsius
  else if unit = "F" then some (celsius * 9 / 5 + 32)
  else if unit = "K" then some (celsius + 27315 / 100)
  else none

/-- The composition `fromCelsius(toCelsius(v, from), to)` in exact rational arithmetic. -/
def convertExact (v : ℚ) (src dst : String) : Option ℚ :=
  (toCelsiusExact v src).bind (fun celsius => fromCelsiusExact celsius dst)

/-- The round trip `convert(convert(v, u, u2), u2, u)` in binary64 arithmetic. -/
def roundTrip (v : JSNum) (u u2 : String) : Option JSNum :=
  (convert v u u2).bind (fun w => convert w u2 u)

/-- The round trip `convert(convert(v, u, u2), u2, u)` in exact rational arithmetic. -/
def roundTripExact (v : ℚ) (u u2 : String) : Option ℚ :=
  (convertExact v u u2).bind (fun w => convertExact w u2 u)

/-- An arithmetic step with a constant right operand. -/
inductive ArithOp where
  | addc (c : ℚ) : ArithOp
  | mulc (c : ℚ) : ArithOp
  | divc (c : ℚ) : ArithOp

/-- One step in binary64 arithmetic. -/
def runOp : ArithOp → JSNum → JSNum
  | ArithOp.addc c, x => add x (JSNum.fin c)
  | ArithOp.mulc c, x => mul x (JSNum.fin c)
  | ArithOp.divc c, x => div x (JSNum.fin c)

/-- A sequence of steps in binary64 arithmetic. -/
def runOps : List ArithOp → JSNum → JSNum
  | [], x => x
  | op :: ops, x => runOps ops (runOp op x)

/-- One step in exact arithmetic. -/
def exactOp : ArithOp → ℚ → ℚ
  | ArithOp.addc c, y => y + c
  | ArithOp.mulc c, y => y * c
  | ArithOp.divc c, y => y / c

/-- A sequence of steps in exact arithmetic. -/
def exactOps : List ArithOp → ℚ → ℚ
  | [], y => y
  | op :: ops, y => exactOps ops (exactOp op y)

/-- The factor by which a step scales an error of its input. -/
def opGain : ArithOp → ℚ
  | ArithOp.addc _ => 1
  | ArithOp.mulc c => |c|
  | ArithOp.divc c => 1 / |c|

/-- A bound on the magnitude of the exact result of a step whose input is at most `Y`
in magnitude. -/
def opMag : ArithOp → ℚ → ℚ
  | ArithOp.addc c, Y => Y + |c|
  | ArithOp.mulc c, Y => Y * |c|
  | ArithOp.divc c, Y => Y / |c|

/-- The step does not divide by zero. -/
def opOk : ArithOp → Bool
  | ArithOp.divc c => decide (c ≠ 0)
  | _ => true

/-- Forward error bound of a sequence of steps: for an input of magnitude at most `Y`
known up to `δ`, each step scales the error and adds half an ulp of its result
(`2 ^ (-53)` times its magnitude); `none` when a result may leave `[2 ^ (-1022), 2 ^ 1000]`. -/
def errBound : List ArithOp → ℚ → ℚ → Option ℚ
  | [], _, δ => some δ
  | op :: ops, Y, δ =>
      if opOk op = true ∧ pow2 (-1022) ≤ opMag op Y + opGain op * δ ∧
          opMag op Y + opGain op * δ ≤ pow2 1000 then
        errBound ops (opMag op Y) (opGain op * δ + (opMag op Y + opGain op * δ) * pow2 (-53))
      else none

/-- The binary64 value of the literal `273.15`. -/
def kelvinOffset : ℚ := 2402652809016115 / 8796093022208

/-- The steps of `toCelsius` for a unit. -/
def toCelsiusOps (unit : String) : List ArithOp :=
  if unit = "F" then [ArithOp.addc (-32), ArithOp.mulc 5, ArithOp.divc 9]
  else if unit = "K" then [ArithOp.addc (-kelvinOffset)]
  else []

/-- The steps of `fromCelsius` for a unit. -/
def fromCelsiusOps (unit : String) : List ArithOp :=
  if unit = "F" then [ArithOp.mulc 9, ArithOp.divc 5, ArithOp.addc 32]
  else if unit = "K" then [ArithOp.addc kelvinOffset]
  else []

/-- The steps of the round trip `convert(convert(v, u, u2), u2, u)`. -/
def roundTripOps (u u2 : String) : List ArithOp :=
  toCelsiusOps u ++ fromCelsiusOps u2 ++ toCelsiusOps u2 ++ fromCelsiusOps u

/-- The forward error bound of the round trip for inputs of magnitude at most `750000`
is at most `10 ^ (-9)`. -/
def roundTripErrOk (u u2 : String) : Bool :=
  match errBound (roundTripOps u u2) 750000 0 with
  | some ε => decide (ε ≤ 1 / 10 ^ 9)
  | none => false

/-- A page state used to instantiate the theorems: empty text field, units `C` and `F`,
slider at `50` in `[0, 100]`, nothing stored. -/
def sampleDom : Dom :=
  { input := "", fromUnit := "C", toUnit := "F", message := "", result := "",
    rangeValue := "50", rangeMin := "0", rangeMax := "100", liveToggle := false,
    resultValue := "", resultUnit := "", resultNote := "", thermHeight := "",
    thermBackground := "", inputFocused := false, store := none, frames := [] }

/-! ## Theorems -/

/-! ### Binary64 rounding -/

/-- The computable `pow2` is the integer power of two. -/
theorem pow2_eq_zpow (e : Int) : pow2 e = (2 : ℚ) ^ e := by
  unfold pow2
  split
  · next h =>
    conv_rhs => rw [← Int.toNat_of_nonneg h]
    rw [zpow_natCast]; push_cast; rfl
  · next h =>
    have h2 : e = -((-e).toNat : Int) := by
      rw [Int.toNat_of_nonneg (by omega)]; ring
    conv_rhs => rw [h2]
    rw [zpow_neg, zpow_natCast]; push_cast
    rw [one_div]

theorem pow2_pos (e : Int) : 0 < pow2 e := by
  rw [pow2_eq_zpow]; positivity

theorem pow2_add (a b : Int) : pow2 (a + b) = pow2 a * pow2 b := by
  simp only [pow2_eq_zpow]; exact zpow_add₀ (by norm_num) a b

theorem pow2_le_pow2 {a b : Int} (h : a ≤ b) : pow2 a ≤ pow2 b := by
  simp only [pow2_eq_zpow]; exact zpow_le_zpow_right₀ (by norm_num) h

theorem pow2_lt_pow2 {a b : Int} (h : a < b) : pow2 a < pow2 b := by
  simp only [pow2_eq_zpow]; exact zpow_lt_zpow_right₀ (by norm_num) h

theorem pow2_lt_iff {a b : Int} : pow2 a < pow2 b ↔ a < b := by
  constructor
  · intro h
    by_contra hc
    push_neg at hc
    have := pow2_le_pow2 hc
    linarith
  · exact pow2_lt_pow2

theorem pow2_natCast (n : Nat) : pow2 (n : Int) = ((2 ^ n : Int) : ℚ) := by
  rw [pow2_eq_zpow, zpow_natCast]; push_cast; rfl

theorem bitLen_zero (fuel : Nat) : bitLen fuel 0 = 0 := by
  cases fuel <;> simp [bitLen]

/-- A positive `n` with `bitLen = k + 1` lies in `[2 ^ k, 2 ^ (k + 1))`. -/
theorem bitLen_spec (fuel : Nat) : ∀ n : Nat, 0 < n → n ≤ fuel →
    ∃ k, bitLen fuel n = k + 1 ∧ 2 ^ k ≤ n ∧ n < 2 ^ (k + 1) := by
  induction fuel with
  | zero => intro n h1 h2; omega
  | succ f ih =>
    intro n h1 h2
    have hn : n ≠ 0 := by omega
    simp only [bitLen, hn, if_false]
    by_cases h : n / 2 = 0
    · refine ⟨0, ?_, ?_, ?_⟩
      · rw [h, bitLen_zero]
      · simpa using h1
      · have : n < 2 := by omega
        simpa using this
    · obtain ⟨k, hk, h3, h4⟩ := ih (n / 2) (by omega) (by omega)
      refine ⟨k + 1, by rw [hk], ?_, ?_⟩
      · rw [pow_succ]; omega
      · rw [pow_succ] at h4 ⊢; rw [pow_succ]; omega

/-- The binary exponent brackets the magnitude: `2 ^ e ≤ |q| < 2 ^ (e + 1)`. -/
theorem ilog2_spec (q : ℚ) (hq : q ≠ 0) :
    pow2 (ilog2 q) ≤ |q| ∧ |q| < pow2 (ilog2 q + 1) := by
  have hnum : 0 < q.num.natAbs := Int.natAbs_pos.mpr (Rat.num_ne_zero.mpr hq)
  obtain ⟨a, ha, ha1, ha2⟩ := bitLen_spec _ _ hnum le_rfl
  obtain ⟨b, hb, hb1, hb2⟩ := bitLen_spec _ _ q.den_pos le_rfl
  have habs : |q| = (q.num.natAbs : ℚ) / (q.den : ℚ) := by
    conv_lhs => rw [← Rat.num_div_den q]
    rw [abs_div, Nat.cast_natAbs, Int.cast_abs]
    congr 1
    exact abs_of_pos (by exact_mod_cast q.den_pos)
  have hd : (0 : ℚ) < q.den := by exact_mod_cast q.den_pos
  have ha1q : (2 : ℚ) ^ a ≤ q.num.natAbs := by exact_mod_cast ha1
  have ha2q : (q.num.natAbs : ℚ) < 2 ^ (a + 1) := by exact_mod_cast ha2
  have hb1q : (2 : ℚ) ^ b ≤ q.den := by exact_mod_cast hb1
  have hb2q : (q.den : ℚ) < 2 ^ (b + 1) := by exact_mod_cast hb2
  have hlow : pow2 ((a : Int) - b - 1) ≤ |q| := by
    rw [habs, pow2_eq_zpow, le_div_iff₀ hd]
    have : (2 : ℚ) ^ ((a : Int) - b - 1) * 2 ^ (b + 1) = 2 ^ a := by
      rw [← zpow_natCast, ← zpow_natCast, ← zpow_add₀ (by norm_num)]
      congr 1; push_cast; ring
    calc (2 : ℚ) ^ ((a : Int) - b - 1) * q.den
        ≤ (2 : ℚ) ^ ((a : Int) - b - 1) * 2 ^ (b + 1) := by
          apply mul_le_mul_of_nonneg_left hb2q.le; positivity
      _ = 2 ^ a := this
      _ ≤ _ := ha1q
  have hhigh : |q| < pow2 ((a : Int) - b + 1) := by
    rw [habs, pow2_eq_zpow, div_lt_iff₀ hd]
    have : (2 : ℚ) ^ ((a : Int) - b + 1) * 2 ^ b = 2 ^ (a + 1) := by
      rw [← zpow_natCast, ← zpow_natCast, ← zpow_add₀ (by norm_num)]
      congr 1; push_cast; ring
    calc (q.num.natAbs : ℚ) < 2 ^ (a + 1) := ha2q
      _ = (2 : ℚ) ^ ((a : Int) - b + 1) * 2 ^ b := this.symm
      _ ≤ _ := by apply mul_le_mul_of_nonneg_left hb1q; positivity
  unfold ilog2
  simp only [ha, hb]
  have he : ((a + 1 : Nat) : Int) - ((b + 1 : Nat) : Int) = (a : Int) - b := by push_cast; ring
  rw [he]
  split
  · next h => exact ⟨h, hhigh⟩
  · next h =>
    refine ⟨hlow, ?_⟩
    have : (a : Int) - b - 1 + 1 = a - b := by ring
    rw [this]; exact lt_of_not_le h

theorem ilog2_neg (q : ℚ) : ilog2 (-q) = ilog2 q := by
  unfold ilog2
  simp only [Rat.neg_num, Rat.neg_den, Int.natAbs_neg, abs_neg]

theorem ilog2_mono {x y : ℚ} (hx : 0 < x) (h : x ≤ y) : ilog2 x ≤ ilog2 y := by
  have hy : 0 < y := lt_of_lt_of_le hx h
  obtain ⟨a1, _⟩ := ilog2_spec x hx.ne'
  obtain ⟨_, b2⟩ := ilog2_spec y hy.ne'
  rw [abs_of_pos hx] at a1
  rw [abs_of_pos hy] at b2
  have : pow2 (ilog2 x) < pow2 (ilog2 y + 1) := lt_of_le_of_lt (le_trans a1 h) b2
  by_contra hc
  push_neg at hc
  have := pow2_le_pow2 (show ilog2 y + 1 ≤ ilog2 x by omega)
  linarith

theorem ilog2_lt_of_lt_pow2 {r : ℚ} {k : Int} (hr : 0 < r) (h : r < pow2 k) : ilog2 r < k := by
  obtain ⟨a1, _⟩ := ilog2_spec r hr.ne'
  rw [abs_of_pos hr] at a1
  exact pow2_lt_iff.mp (lt_of_le_of_lt a1 h)

theorem ilog2_pow2 (k : Int) : ilog2 (pow2 k) = k := by
  have hp := pow2_pos k
  obtain ⟨a1, a2⟩ := ilog2_spec (pow2 k) hp.ne'
  rw [abs_of_pos hp] at a1 a2
  have h1 : ilog2 (pow2 k) ≤ k := by
    by_contra hc
    push_neg at hc
    have := pow2_lt_pow2 hc
    linarith
  have h2 := pow2_lt_iff.mp a2
  omega

theorem roundEven_cases (x : ℚ) : roundEven x = ⌊x⌋ ∨ roundEven x = ⌊x⌋ + 1 := by
  unfold roundEven
  simp only
  split_ifs <;> simp

/-- Rounding to the nearest integer moves a value by at most one half. -/
theorem roundEven_sub_le (x : ℚ) : |(roundEven x : ℚ) - x| ≤ 1 / 2 := by
  have h1 := Int.floor_le x
  have h2 := Int.lt_floor_add_one x
  unfold roundEven
  simp only
  split_ifs with ha hb hc
  · rw [abs_le]; constructor <;> linarith
  · rw [abs_le]; push_cast; constructor <;> linarith
  · rw [abs_le]; constructor <;> linarith
  · rw [abs_le]; push_cast; constructor <;> linarith

theorem roundEven_intCast (n : Int) : roundEven (n : ℚ) = n := by
  unfold roundEven
  simp

/-- Rounding to the nearest integer is monotone. -/
theorem roundEven_mono {x y : ℚ} (h : x ≤ y) : roundEven x ≤ roundEven y := by
  have hf : ⌊x⌋ ≤ ⌊y⌋ := Int.floor_mono h
  rcases hf.lt_or_eq with hlt | heq
  · have h1 : roundEven x ≤ ⌊x⌋ + 1 := by
      rcases roundEven_cases x with e | e <;> omega
    have h2 : ⌊y⌋ ≤ roundEven y := by
      rcases roundEven_cases y with e | e <;> omega
    omega
  · unfold roundEven
    simp only
    rw [← heq]
    split_ifs <;> first | omega | (exfalso; linarith)

/-- Rounding to the nearest integer, ties to even, is odd. -/
theorem roundEven_neg (x : ℚ) : roundEven (-x) = -roundEven x := by
  by_cases hx : (⌊x⌋ : ℚ) = x
  · rw [← hx, ← Int.cast_neg, roundEven_intCast, roundEven_intCast]
  · have hlt : (⌊x⌋ : ℚ) < x := lt_of_le_of_ne (Int.floor_le x) hx
    have hfl : ⌊-x⌋ = -⌊x⌋ - 1 := by
      rw [Int.floor_eq_iff]
      have := Int.lt_floor_add_one x
      push_cast
      constructor <;> linarith
    unfold roundEven
    simp only
    rw [hfl]
    push_cast
    split_ifs <;> first | omega | (exfalso; linarith)

theorem rq_zero : rq 0 = 0 := by simp [rq]

theorem rq_neg (q : ℚ) : rq (-q) = -rq q := by
  unfold rq
  by_cases h : q = 0
  · simp [h]
  · have h2 : -q ≠ 0 := neg_ne_zero.mpr h
    simp only [h, h2, if_false, ilog2_neg]
    rw [neg_div, roundEven_neg]
    push_cast
    ring

theorem rq_nonneg {q : ℚ} (h : 0 ≤ q) : 0 ≤ rq q := by
  unfold rq
  split
  · exact le_rfl
  · have hp := pow2_pos (max (ilog2 q) (-1022) - 52)
    have h0 : (0 : ℚ) ≤ q / pow2 (max (ilog2 q) (-1022) - 52) := div_nonneg h hp.le
    have := roundEven_mono h0
    rw [show (0 : ℚ) = ((0 : Int) : ℚ) by simp, roundEven_intCast] at this
    have h3 : (0 : ℚ) ≤ (roundEven (q / pow2 (max (ilog2 q) (-1022) - 52)) : ℚ) := by
      exact_mod_cast this
    exact mul_nonneg h3 hp.le

theorem rq_nonpos {q : ℚ} (h : q ≤ 0) : rq q ≤ 0 := by
  have := rq_nonneg (neg_nonneg.mpr h)
  rw [rq_neg] at this
  linarith

theorem rq_le_pow2 {x : ℚ} (hx : 0 < x) : rq x ≤ pow2 (max (ilog2 x) (-1022) - 52 + 53) := by
  obtain ⟨_, a2⟩ := ilog2_spec x hx.ne'
  rw [abs_of_pos hx] at a2
  set e := max (ilog2 x) (-1022) - 52 with he
  have hp := pow2_pos e
  have h1 : x < pow2 (e + 53) :=
    lt_of_lt_of_le a2 (pow2_le_pow2 (by rw [he]; have := le_max_left (ilog2 x) (-1022); omega))
  have h2 : x / pow2 e ≤ ((2 ^ 53 : Int) : ℚ) := by
    rw [div_le_iff₀ hp, ← pow2_natCast, mul_comm, ← pow2_add]
    exact_mod_cast h1.le
  have h3 := roundEven_mono h2
  rw [roundEven_intCast] at h3
  have h4 : (roundEven (x / pow2 e) : ℚ) ≤ ((2 ^ 53 : Int) : ℚ) := by exact_mod_cast h3
  unfold rq
  rw [if_neg hx.ne']
  simp only [← he]
  calc (roundEven (x / pow2 e) : ℚ) * pow2 e ≤ ((2 ^ 53 : Int) : ℚ) * pow2 e :=
        mul_le_mul_of_nonneg_right h4 hp.le
    _ = pow2 (e + 53) := by
        rw [← pow2_natCast, ← pow2_add]; congr 1; push_cast; ring

theorem pow2_le_rq {y : ℚ} (hy : 0 < y) (hn : -1022 ≤ ilog2 y) : pow2 (ilog2 y) ≤ rq y := by
  obtain ⟨a1, _⟩ := ilog2_spec y hy.ne'
  rw [abs_of_pos hy] at a1
  have he : max (ilog2 y) (-1022) - 52 = ilog2 y - 52 := by rw [max_eq_left hn]
  set e := ilog2 y - 52 with hee
  have hp := pow2_pos e
  have h2 : ((2 ^ 52 : Int) : ℚ) ≤ y / pow2 e := by
    rw [le_div_iff₀ hp, ← pow2_natCast, ← pow2_add]
    have : ((52 : Nat) : Int) + e = ilog2 y := by rw [hee]; push_cast; ring
    rw [this]; exact a1
  have h3 := roundEven_mono h2
  rw [roundEven_intCast] at h3
  have h4 : ((2 ^ 52 : Int) : ℚ) ≤ (roundEven (y / pow2 e) : ℚ) := by exact_mod_cast h3
  unfold rq
  rw [if_neg hy.ne']
  simp only [he]
  calc pow2 (ilog2 y) = ((2 ^ 52 : Int) : ℚ) * pow2 e := by
        rw [← pow2_natCast, ← pow2_add]; congr 1; rw [hee]; push_cast; ring
    _ ≤ _ := mul_le_mul_of_nonneg_right h4 hp.le

theorem rq_mono_pos {x y : ℚ} (hx : 0 < x) (h : x ≤ y) : rq x ≤ rq y := by
  have hy : 0 < y := lt_of_lt_of_le hx h
  have hl := ilog2_mono hx h
  by_cases he : max (ilog2 x) (-1022) = max (ilog2 y) (-1022)
  · unfold rq
    rw [if_neg hx.ne', if_neg hy.ne']
    simp only [he]
    have hp := pow2_pos (max (ilog2 y) (-1022) - 52)
    have := roundEven_mono (div_le_div_of_nonneg_right h hp.le)
    have h4 : (roundEven (x / pow2 (max (ilog2 y) (-1022) - 52)) : ℚ) ≤
        (roundEven (y / pow2 (max (ilog2 y) (-1022) - 52)) : ℚ) := by exact_mod_cast this
    exact mul_le_mul_of_nonneg_right h4 hp.le
  · have hlt : max (ilog2 x) (-1022) < max (ilog2 y) (-1022) :=
      lt_of_le_of_ne (max_le_max hl le_rfl) he
    have hn : -1022 < ilog2 y := by
      by_contra hc
      push_neg at hc
      rw [max_eq_right hc] at hlt
      have := le_max_right (ilog2 x) (-1022)
      omega
    have hy2 : max (ilog2 y) (-1022) = ilog2 y := max_eq_left hn.le
    calc rq x ≤ pow2 (max (ilog2 x) (-1022) - 52 + 53) := rq_le_pow2 hx
      _ ≤ pow2 (ilog2 y) := pow2_le_pow2 (by omega)
      _ ≤ rq y := pow2_le_rq hy hn.le

/-- Rounding to binary64 precision is monotone. -/
theorem rq_mono {x y : ℚ} (h : x ≤ y) : rq x ≤ rq y := by
  rcases lt_trichotomy x 0 with hx | hx | hx
  · rcases lt_or_le y 0 with hy | hy
    · have := rq_mono_pos (neg_pos.mpr hy) (neg_le_neg h)
      rw [rq_neg, rq_neg] at this
      linarith
    · exact le_trans (rq_nonpos hx.le) (rq_nonneg hy)
  · rw [hx, rq_zero]; exact rq_nonneg (hx ▸ h)
  · exact rq_mono_pos hx h

theorem rq_of_int_mul {r : ℚ} (z : Int) (h : r = (z : ℚ) * pow2 (max (ilog2 r) (-1022) - 52)) :
    rq r = r := by
  unfold rq
  split
  · next h0 => exact h0.symm
  · have hp := pow2_pos (max (ilog2 r) (-1022) - 52)
    have : r / pow2 (max (ilog2 r) (-1022) - 52) = (z : ℚ) := by
      rw [div_eq_iff hp.ne']; exact h
    simp only [this, roundEven_intCast]
    exact h.symm

theorem rq_idem_pos {q : ℚ} (hq : 0 < q) : rq (rq q) = rq q := by
  have hle := rq_le_pow2 hq
  have h0 := rq_nonneg hq.le
  have hemin : -1074 ≤ max (ilog2 q) (-1022) - 52 := by
    have := le_max_right (ilog2 q) (-1022)
    omega
  obtain ⟨m, hr⟩ : ∃ m : Int, rq q = (m : ℚ) * pow2 (max (ilog2 q) (-1022) - 52) :=
    ⟨roundEven (q / pow2 (max (ilog2 q) (-1022) - 52)), by unfold rq; rw [if_neg hq.ne']⟩
  generalize max (ilog2 q) (-1022) - 52 = e at hle hemin hr
  generalize rq q = r at hle h0 hr
  rcases h0.lt_or_eq with hpos | hz
  · rcases hle.lt_or_eq with hlt | heq
    · have hl := ilog2_lt_of_lt_pow2 hpos hlt
      have he' : max (ilog2 r) (-1022) - 52 ≤ e := by
        rcases max_cases (ilog2 r) (-1022) with ⟨h1, _⟩ | ⟨h1, _⟩ <;> rw [h1] <;> omega
      obtain ⟨n, hn⟩ : ∃ n : Nat, e = (max (ilog2 r) (-1022) - 52) + n :=
        ⟨(e - (max (ilog2 r) (-1022) - 52)).toNat, by omega⟩
      apply rq_of_int_mul (m * 2 ^ n)
      conv_lhs => rw [hr, hn, pow2_add, pow2_natCast]
      push_cast
      ring
    · apply rq_of_int_mul (2 ^ 52)
      rw [heq, ilog2_pow2]
      have : max (e + 53) (-1022) = e + 53 := max_eq_left (by omega)
      rw [this, show e + 53 - 52 = e + 1 by ring,
        show e + 53 = ((52 : Nat) : Int) + (e + 1) by push_cast; ring, pow2_add, pow2_natCast]
  · rw [← hz, rq_zero]

/-- Rounding to binary64 precision is idempotent: its results are representable. -/
theorem rq_idem (q : ℚ) : rq (rq q) = rq q := by
  rcases lt_trichotomy q 0 with h | h | h
  · have := rq_idem_pos (neg_pos.mpr h)
    rw [rq_neg, rq_neg] at this
    linarith
  · rw [h, rq_zero, rq_zero]
  · exact rq_idem_pos h

theorem rq_sub_le (x : ℚ) (hx : x ≠ 0) :
    |rq x - x| ≤ pow2 (max (ilog2 x) (-1022) - 52) / 2 := by
  have hp := pow2_pos (max (ilog2 x) (-1022) - 52)
  have h := roundEven_sub_le (x / pow2 (max (ilog2 x) (-1022) - 52))
  unfold rq
  rw [if_neg hx]
  simp only
  have e : (roundEven (x / pow2 (max (ilog2 x) (-1022) - 52)) : ℚ) *
      pow2 (max (ilog2 x) (-1022) - 52) - x =
      ((roundEven (x / pow2 (max (ilog2 x) (-1022) - 52)) : ℚ) -
        x / pow2 (max (ilog2 x) (-1022) - 52)) * pow2 (max (ilog2 x) (-1022) - 52) := by
    field_simp
  rw [e, abs_mul, abs_of_pos hp]
  calc _ ≤ 1 / 2 * pow2 (max (ilog2 x) (-1022) - 52) :=
        mul_le_mul_of_nonneg_right h hp.le
    _ = _ := by ring

/-- Rounding error: a value of magnitude at most `M` moves by at most `M * 2 ^ (-53)`. -/
theorem rq_err (x M : ℚ) (hM : pow2 (-1022) ≤ M) (hx : |x| ≤ M) :
    |rq x - x| ≤ M * pow2 (-53) := by
  by_cases h0 : x = 0
  · rw [h0, rq_zero]; simp
    exact mul_nonneg (le_trans (pow2_pos _).le hM) (pow2_pos _).le
  · have h := rq_sub_le x h0
    obtain ⟨a1, _⟩ := ilog2_spec x h0
    have hhalf : ∀ e : Int, pow2 (e - 52) / 2 = pow2 e * pow2 (-53) := by
      intro e
      rw [← pow2_add, show e + -53 = (e - 52) + (-1) by ring, pow2_add]
      have : pow2 (-1) = 1 / 2 := by rw [pow2_eq_zpow]; norm_num
      rw [this]; ring
    rw [hhalf] at h
    have hp := pow2_pos (-53)
    refine le_trans h (mul_le_mul_of_nonneg_right ?_ hp.le)
    rcases max_cases (ilog2 x) (-1022) with ⟨e, _⟩ | ⟨e, _⟩
    · rw [e]; exact le_trans a1 hx
    · rw [e]; exact hM

theorem ofNat_eq (n : Nat) : (OfNat.ofNat n : JSNum) = JSNum.fin (n : ℚ) := rfl

theorem round64_eq (q : ℚ) : round64 q =
    if overflowBound ≤ rq q then JSNum.pinf
    else if rq q ≤ -overflowBound then JSNum.ninf else JSNum.fin (rq q) := rfl

theorem round64_ne_nan (q : ℚ) : round64 q ≠ JSNum.nan := by
  rw [round64_eq]
  split_ifs <;> exact fun h => JSNum.noConfusion h

theorem rq_consts : rq 0 = 0 ∧ rq 1 = 1 ∧ rq 80 = 80 ∧ rq 100 = 100 ∧
    (100 : ℚ) < overflowBound ∧ -overflowBound < (0 : ℚ) := by decide!

theorem overflow_consts : pow2 1001 < overflowBound ∧ pow2 1000 * 2 = pow2 1001 ∧
    pow2 (-53) ≤ 1 ∧ 0 < pow2 (-1022) := by decide!

theorem round64_neg (q : ℚ) : round64 (-q) = neg (round64 q) := by
  have hb : (0 : ℚ) < overflowBound := by
    have := rq_consts.2.2.2.2.1
    linarith
  simp only [round64_eq, rq_neg]
  by_cases h1 : overflowBound ≤ rq q
  · rw [if_pos h1, if_neg (by linarith), if_pos (by linarith)]; rfl
  · by_cases h2 : rq q ≤ -overflowBound
    · rw [if_neg h1, if_pos h2, if_pos (by linarith)]; rfl
    · rw [if_neg h1, if_neg h2, if_neg (by linarith), if_neg (by linarith)]; rfl

theorem round64_atMost {q r : ℚ} (h : q ≤ r) (hr : rq r = r) (hb : r < overflowBound) :
    AtMost (round64 q) r := by
  have h1 : rq q ≤ r := hr ▸ rq_mono h
  rw [round64_eq]
  split_ifs with h2 h3
  · exact absurd (lt_of_le_of_lt (le_trans h2 h1) hb) (lt_irrefl _)
  · trivial
  · exact h1

theorem round64_atLeast {q r : ℚ} (h : r ≤ q) (hr : rq r = r) (hb : -overflowBound < r) :
    AtLeast (round64 q) r := by
  have h1 : r ≤ rq q := hr ▸ rq_mono h
  rw [round64_eq]
  split_ifs with h2 h3
  · trivial
  · exact absurd (lt_of_lt_of_le hb (le_trans h1 h3)) (lt_irrefl _)
  · exact h1

theorem round64_fin_of_bounds {q lo hi : ℚ} (h1 : lo ≤ q) (h2 : q ≤ hi) (hlo : rq lo = lo)
    (hhi : rq hi = hi) (blo : -overflowBound < lo) (bhi : hi < overflowBound) :
    round64 q = JSNum.fin (rq q) ∧ lo ≤ rq q ∧ rq q ≤ hi := by
  have a1 : lo ≤ rq q := hlo ▸ rq_mono h1
  have a2 : rq q ≤ hi := hhi ▸ rq_mono h2
  refine ⟨?_, a1, a2⟩
  rw [round64_eq, if_neg (by linarith), if_neg (by linarith)]

/-- Every rounded result is a binary64 value. -/
theorem isDouble_round64 (q : ℚ) : IsDouble (round64 q) := by
  rw [round64_eq]
  split_ifs with h1 h2
  · trivial
  · trivial
  · show round64 (rq q) = JSNum.fin (rq q)
    rw [round64_eq, rq_idem, if_neg h1, if_neg h2]

theorem isDouble_fin {q : ℚ} (h : IsDouble (JSNum.fin q)) :
    rq q = q ∧ -overflowBound < q ∧ q < overflowBound := by
  have h' : round64 q = JSNum.fin q := h
  rw [round64_eq] at h'
  split_ifs at h' with h1 h2
  have e : rq q = q := by injection h'
  rw [e] at h1 h2
  exact ⟨e, lt_of_not_le h2, lt_of_not_le h1⟩

theorem isDouble_add (a b : JSNum) : IsDouble (add a b) := by
  cases a <;> cases b <;> first | trivial | exact isDouble_round64 _

theorem isDouble_sub (a b : JSNum) : IsDouble (sub a b) := isDouble_add a (neg b)

theorem mul_one_of_isDouble {x : JSNum} (h : IsDouble x) : mul x 1 = x := by
  cases x with
  | nan => rfl
  | pinf => norm_num [mul, ofNat_eq, infOfSign]
  | ninf => norm_num [mul, ofNat_eq, infOfSign]
  | fin q =>
    have h' : round64 q = JSNum.fin q := h
    simp only [mul, ofNat_eq, Nat.cast_one, mul_one, h']

theorem add_zero_sub_zero {x : JSNum} (h : IsDouble x) : add 0 (sub x 0) = x := by
  cases x with
  | nan => rfl
  | pinf => rfl
  | ninf => rfl
  | fin q =>
    have h' : round64 q = JSNum.fin q := h
    simp only [sub, neg, add, ofNat_eq, Nat.cast_zero, neg_zero, add_zero, h', zero_add]

/-- A binary64 value that is not an integer is below `2 ^ 52` in magnitude. -/
theorem double_nonint_small {q : ℚ} (hd : IsDouble (JSNum.fin q)) (hq : q.den ≠ 1) :
    |q| < pow2 52 := by
  by_contra hc
  push_neg at hc
  have hp := pow2_pos 52
  have hq0 : q ≠ 0 := by
    intro h; rw [h] at hc; simp at hc; linarith
  obtain ⟨_, a2⟩ := ilog2_spec q hq0
  have hl : 52 ≤ ilog2 q := by
    have := pow2_lt_iff.mp (lt_of_le_of_lt hc a2)
    omega
  obtain ⟨e, _, _⟩ := isDouble_fin hd
  have hr : rq q = (roundEven (q / pow2 (max (ilog2 q) (-1022) - 52)) : ℚ) *
      pow2 (max (ilog2 q) (-1022) - 52) := by
    unfold rq; rw [if_neg hq0]
  rw [max_eq_left (by omega)] at hr
  obtain ⟨n, hn⟩ : ∃ n : Nat, ilog2 q - 52 = n := ⟨(ilog2 q - 52).toNat, by omega⟩
  rw [hn, pow2_natCast, e] at hr
  apply hq
  rw [hr]
  have : ((roundEven (q / ((2 ^ n : Int) : ℚ)) : ℚ) * ((2 ^ n : Int) : ℚ)) =
      ((roundEven (q / ((2 ^ n : Int) : ℚ)) * 2 ^ n : Int) : ℚ) := by push_cast; ring
  rw [this]
  exact Rat.den_intCast _

/-! ### Unit conversion (C1, C2) -/

theorem lit_kelvin : lit (27315 / 100) = JSNum.fin kelvinOffset := by decide!

theorem mem_units {u : String} (h : u ∈ ["C", "F", "K"]) : u = "C" ∨ u = "F" ∨ u = "K" := by
  simpa using h

/-- For the three units `toCelsius` is defined and maps a Number other than NaN to a
Number other than NaN. -/
theorem toCelsius_some (v : JSNum) (u : String) (hu : u ∈ ["C", "F", "K"]) :
    ∃ c, toCelsius v u = some c ∧ (v ≠ JSNum.nan → c ≠ JSNum.nan) := by
  rcases mem_units hu with rfl | rfl | rfl
  · exact ⟨v, by simp [toCelsius], id⟩
  · refine ⟨div (mul (sub v 32) 5) 9, by simp [toCelsius], ?_⟩
    intro hv
    cases v with
    | nan => exact absurd rfl hv
    | pinf => decide!
    | ninf => decide!
    | fin q =>
      have h1 : sub (JSNum.fin q) 32 = round64 (q + -32) := by simp [sub, neg, add, ofNat_eq]
      rw [h1]
      rw [round64_eq]
      split_ifs
      · decide!
      · decide!
      · simp only [mul, ofNat_eq]
        rw [round64_eq]
        split_ifs
        · decide!
        · decide!
        · simpa [div] using round64_ne_nan _
  · refine ⟨sub v (lit (27315 / 100)), by simp [toCelsius], ?_⟩
    intro hv
    rw [lit_kelvin]
    cases v with
    | nan => exact absurd rfl hv
    | pinf => simp [sub, neg, add]
    | ninf => simp [sub, neg, add]
    | fin q => simpa [sub, neg, add] using round64_ne_nan _

/-- C1: the known fixed points of the conversion: `convert(0,C,F) = 32`,
`convert(32,F,C) = 0`, `convert(0,C,K) = 273.15` and `convert(100,C,F) = 212`. -/
theorem convert_fixed_points :
    convert 0 "C" "F" = some 32 ∧ convert 32 "F" "C" = some 0 ∧
    convert 0 "C" "K" = some (lit (27315 / 100)) ∧ convert 100 "C" "F" = some 212 := by
  decide!

/-- One step on an input known up to `δ`: the result is finite and known up to the scaled
`δ` plus the rounding error of the step. -/
theorem runOp_approx (op : ArithOp) (a y Y δ : ℚ) (hok : opOk op = true)
    (hlo : pow2 (-1022) ≤ opMag op Y + opGain op * δ)
    (hhi : opMag op Y + opGain op * δ ≤ pow2 1000)
    (ha : |a - y| ≤ δ) (hy : |y| ≤ Y) :
    ∃ b, runOp op (JSNum.fin a) = JSNum.fin b ∧
      |b - exactOp op y| ≤ opGain op * δ + (opMag op Y + opGain op * δ) * pow2 (-53) ∧
      |exactOp op y| ≤ opMag op Y := by
  obtain ⟨o1, o2, o3, o4⟩ := overflow_consts
  have hδ : 0 ≤ δ := le_trans (abs_nonneg _) ha
  -- the exact result on the float input
  have key : ∀ z : ℚ, |z - exactOp op y| ≤ opGain op * δ → |exactOp op y| ≤ opMag op Y →
      round64 z = JSNum.fin (rq z) ∧
      |rq z - exactOp op y| ≤ opGain op * δ + (opMag op Y + opGain op * δ) * pow2 (-53) := by
    intro z hz hm
    have hzM : |z| ≤ opMag op Y + opGain op * δ := by
      have : |z| ≤ |exactOp op y| + |z - exactOp op y| := by
        have := abs_add (exactOp op y) (z - exactOp op y)
        simpa using this
      linarith
    have herr := rq_err z _ hlo hzM
    have hMpos : 0 ≤ opMag op Y + opGain op * δ := le_trans o4.le hlo
    have hrz : |rq z| ≤ (opMag op Y + opGain op * δ) * 2 := by
      have : |rq z| ≤ |z| + |rq z - z| := by
        have := abs_add z (rq z - z)
        simpa using this
      have : (opMag op Y + opGain op * δ) * pow2 (-53) ≤ (opMag op Y + opGain op * δ) * 1 :=
        mul_le_mul_of_nonneg_left o3 hMpos
      linarith
    have hb : |rq z| < overflowBound := by
      have : (opMag op Y + opGain op * δ) * 2 ≤ pow2 1000 * 2 :=
        mul_le_mul_of_nonneg_right hhi (by norm_num)
      linarith
    rw [abs_lt] at hb
    constructor
    · rw [round64_eq, if_neg (by linarith), if_neg (by linarith)]
    · have : |rq z - exactOp op y| ≤ |rq z - z| + |z - exactOp op y| := by
        have := abs_add (rq z - z) (z - exactOp op y)
        simpa using this
      linarith
  cases op with
  | addc c =>
    have hm : |exactOp (ArithOp.addc c) y| ≤ opMag (ArithOp.addc c) Y := by
      simp only [exactOp, opMag]
      exact le_trans (abs_add y c) (by linarith)
    obtain ⟨k1, k2⟩ := key (a + c) (by simpa [exactOp, opGain] using ha) hm
    exact ⟨rq (a + c), by simpa [runOp, add] using k1, k2, hm⟩
  | mulc c =>
    have hm : |exactOp (ArithOp.mulc c) y| ≤ opMag (ArithOp.mulc c) Y := by
      simp only [exactOp, opMag, abs_mul]
      exact mul_le_mul_of_nonneg_right hy (abs_nonneg c)
    have hz : |a * c - exactOp (ArithOp.mulc c) y| ≤ opGain (ArithOp.mulc c) * δ := by
      simp only [exactOp, opGain]
      rw [← sub_mul, abs_mul, mul_comm]
      exact mul_le_mul_of_nonneg_left ha (abs_nonneg c)
    obtain ⟨k1, k2⟩ := key (a * c) hz hm
    exact ⟨rq (a * c), by simpa [runOp, mul] using k1, k2, hm⟩
  | divc c =>
    have hc : c ≠ 0 := by simpa [opOk] using hok
    have hcp : 0 < |c| := abs_pos.mpr hc
    have hm : |exactOp (ArithOp.divc c) y| ≤ opMag (ArithOp.divc c) Y := by
      simp only [exactOp, opMag, abs_div]
      exact div_le_div_of_nonneg_right hy hcp.le
    have hz : |a / c - exactOp (ArithOp.divc c) y| ≤ opGain (ArithOp.divc c) * δ := by
      simp only [exactOp, opGain]
      rw [← sub_div, abs_div, div_eq_mul_one_div, mul_comm]
      exact mul_le_mul_of_nonneg_left ha (by positivity)
    obtain ⟨k1, k2⟩ := key (a / c) hz hm
    exact ⟨rq (a / c), by simpa [runOp, div, hc] using k1, k2, hm⟩

/-- Forward error bound of a sequence of steps. -/
theorem runOps_approx (ops : List ArithOp) : ∀ (a y Y δ ε : ℚ),
    errBound ops Y δ = some ε → |a - y| ≤ δ → |y| ≤ Y →
    ∃ b, runOps ops (JSNum.fin a) = JSNum.fin b ∧ |b - exactOps ops y| ≤ ε := by
  induction ops with
  | nil =>
    intro a y Y δ ε h ha _
    simp only [errBound, Option.some.injEq] at h
    exact ⟨a, rfl, by rw [← h]; exact ha⟩
  | cons op ops ih =>
    intro a y Y δ ε h ha hy
    simp only [errBound] at h
    split_ifs at h with hc
    obtain ⟨b, hb1, hb2, hb3⟩ := runOp_approx op a y Y δ hc.1 hc.2.1 hc.2.2 ha hy
    obtain ⟨b', e1, e2⟩ := ih b (exactOp op y) _ _ ε h hb2 hb3
    exact ⟨b', by simp only [runOps, hb1, e1], by simpa [exactOps] using e2⟩

theorem runOps_append (l1 l2 : List ArithOp) (x : JSNum) :
    runOps (l1 ++ l2) x = runOps l2 (runOps l1 x) := by
  induction l1 generalizing x with
  | nil => rfl
  | cons op l ih => exact ih (runOp op x)

theorem toCelsius_ops (x : JSNum) (u : String) (hu : u ∈ ["C", "F", "K"]) :
    toCelsius x u = some (runOps (toCelsiusOps u) x) := by
  rcases mem_units hu with rfl | rfl | rfl
  · simp [toCelsius, toCelsiusOps, runOps]
  · simp [toCelsius, toCelsiusOps, runOps, runOp, sub, neg, ofNat_eq]
  · simp [toCelsius, toCelsiusOps, runOps, runOp, sub, neg, lit_kelvin]

theorem fromCelsius_ops (x : JSNum) (u : String) (hu : u ∈ ["C", "F", "K"]) :
    fromCelsius x u = some (runOps (fromCelsiusOps u) x) := by
  rcases mem_units hu with rfl | rfl | rfl
  · simp [fromCelsius, fromCelsiusOps, runOps]
  · simp [fromCelsius, fromCelsiusOps, runOps, runOp, ofNat_eq]
  · simp [fromCelsius, fromCelsiusOps, runOps, runOp, lit_kelvin]

/-- The round trip is the sequence of steps `roundTripOps`. -/
theorem roundTrip_ops (x : JSNum) (u u2 : String) (hu : u ∈ ["C", "F", "K"])
    (hu2 : u2 ∈ ["C", "F", "K"]) :
    roundTrip x u u2 = some (runOps (roundTripOps u u2) x) := by
  simp only [roundTrip, convert, toCelsius_ops _ _ hu, toCelsius_ops _ _ hu2,
    fromCelsius_ops _ _ hu, fromCelsius_ops _ _ hu2, Option.some_bind, roundTripOps,
    runOps_append]

theorem exact_roundTrip_ops (v : ℚ) (u u2 : String) (hu : u ∈ ["C", "F", "K"])
    (hu2 : u2 ∈ ["C", "F", "K"]) : exactOps (roundTripOps u u2) v = v := by
  rcases mem_units hu with rfl | rfl | rfl <;> rcases mem_units hu2 with rfl | rfl | rfl <;>
    simp [roundTripOps, toCelsiusOps, fromCelsiusOps, exactOps, exactOp]

/-- The round trip is the identity in exact arithmetic. -/
theorem roundTripExact_eq (v : ℚ) (u u2 : String) (hu : u ∈ ["C", "F", "K"])
    (hu2 : u2 ∈ ["C", "F", "K"]) : roundTripExact v u u2 = some v := by
  rcases mem_units hu with rfl | rfl | rfl <;> rcases mem_units hu2 with rfl | rfl | rfl <;>
    simp [roundTripExact, convertExact, toCelsiusExact, fromCelsiusExact]

theorem roundTripErrOk_all : ∀ u ∈ ["C", "F", "K"], ∀ u2 ∈ ["C", "F", "K"],
    roundTripErrOk u u2 = true := by decide!

/-- The binary64 round trip stays within `10 ^ (-9)` for magnitudes up to `750000`. -/
theorem roundTrip_close (v : ℚ) (u u2 : String) (hu : u ∈ ["C", "F", "K"])
    (hu2 : u2 ∈ ["C", "F", "K"]) (hv : |v| ≤ 750000) :
    ∃ w, roundTrip (JSNum.fin v) u u2 = some (JSNum.fin w) ∧ |w - v| ≤ 1 / 10 ^ 9 := by
  have hok := roundTripErrOk_all u hu u2 hu2
  unfold roundTripErrOk at hok
  cases he : errBound (roundTripOps u u2) 750000 0 with
  | none => rw [he] at hok; exact absurd hok (by simp)
  | some ε =>
    rw [he] at hok
    have hε : ε ≤ 1 / 10 ^ 9 := by simpa using hok
    obtain ⟨b, hb1, hb2⟩ := runOps_approx _ v v 750000 0 ε he (by simp) hv
    rw [exact_roundTrip_ops v u u2 hu hu2] at hb2
    exact ⟨b, by rw [roundTrip_ops _ _ _ hu hu2, hb1], le_trans hb2 hε⟩

/-- C2 as stated fails: `15000000` kelvin converted to Fahrenheit and back is
`15000000 + 2 ^ (-29)`, more than `10 ^ (-9)` away. -/
theorem roundTrip_counterexample :
    roundTrip 15000000 "K" "F" = some (JSNum.fin (15000000 + 1 / 2 ^ 29)) ∧
    (1 : ℚ) / 10 ^ 9 < |(15000000 + 1 / 2 ^ 29) - 15000000| := by decide!

/-- C2 amended: for every value `v` and units `u`, `u2` in `C`, `F`, `K` the round trip
`convert(convert(v, u, u2), u2, u)` returns `v` in exact rational arithmetic, and in the
binary64 arithmetic of the script it returns a finite value within `10 ^ (-9)` of `v`
whenever `|v| ≤ 750000`. -/
theorem roundTrip_amended (v : ℚ) (u u2 : String) (hu : u ∈ ["C", "F", "K"])
    (hu2 : u2 ∈ ["C", "F", "K"]) :
    roundTripExact v u u2 = some v ∧
    (|v| ≤ 750000 →
      ∃ w, roundTrip (JSNum.fin v) u u2 = some (JSNum.fin w) ∧ |w - v| ≤ 1 / 10 ^ 9) :=
  ⟨roundTripExact_eq v u u2 hu hu2, roundTrip_close v u u2 hu hu2⟩

/-- C2 instance: `98.6` Fahrenheit to kelvin and back. -/
theorem roundTrip_amended_witness :
    roundTripExact (493 / 5) "F" "K" = some (493 / 5) ∧
    ∃ w, roundTrip (JSNum.fin (493 / 5)) "F" "K" = some (JSNum.fin w) ∧
      |w - 493 / 5| ≤ 1 / 10 ^ 9 :=
  ⟨(roundTrip_amended (493 / 5) "F" "K" (by simp) (by simp)).1,
   (roundTrip_amended (493 / 5) "F" "K" (by simp) (by simp)).2 (by norm_num [abs_le])⟩

/-! ### Number formatting (C9) -/

theorem digitChar_isDigit {d : Nat} (h : d < 10) : isDigitChar (digitChar d) = true := by
  interval_cases d <;> decide

theorem natDigitsAux_spec (fuel : Nat) : ∀ (n : Nat) (acc : List Char),
    ∃ pre, natDigitsAux fuel n acc = pre ++ acc ∧ (∀ c ∈ pre, isDigitChar c = true) ∧
      (0 < fuel → pre ≠ []) := by
  induction fuel with
  | zero => intro n acc; exact ⟨[], rfl, by simp, by simp⟩
  | succ f ih =>
    intro n acc
    simp only [natDigitsAux]
    split_ifs with h
    · exact ⟨[digitChar n], rfl, by simpa using digitChar_isDigit h, by simp⟩
    · obtain ⟨pre, e, hd, _⟩ := ih (n / 10) (digitChar (n % 10) :: acc)
      refine ⟨pre ++ [digitChar (n % 10)], by rw [e]; simp, ?_, by simp⟩
      intro c hc
      rcases List.mem_append.mp hc with h1 | h1
      · exact hd c h1
      · rw [List.mem_singleton.mp h1]
        exact digitChar_isDigit (Nat.mod_lt _ (by norm_num))

/-- The decimal digits of a natural number are nonempty and all digits. -/
theorem natDigits_spec (n : Nat) :
    natDigits n ≠ [] ∧ ∀ c ∈ natDigits n, isDigitChar c = true := by
  obtain ⟨pre, e, hd, hne⟩ := natDigitsAux_spec (n + 1) n []
  unfold natDigits
  rw [e, List.append_nil]
  exact ⟨hne (Nat.succ_pos n), hd⟩

theorem fixedBody_twoDecimals (m : List Char) (hlen : 3 ≤ m.length)
    (hd : ∀ c ∈ m, isDigitChar c = true) :
    ∃ (ds : List Char) (f1 f2 : Char),
      m.take (m.length - 2) ++ '.' :: m.drop (m.length - 2) = ds ++ ['.', f1, f2] ∧
      ds ≠ [] ∧ (∀ c ∈ ds, isDigitChar c = true) ∧ isDigitChar f1 = true ∧
      isDigitChar f2 = true := by
  have hl2 : (m.drop (m.length - 2)).length = 2 := by rw [List.length_drop]; omega
  obtain ⟨f1, f2, hf⟩ := List.length_eq_two.mp hl2
  have hmem : ∀ c ∈ m.drop (m.length - 2), isDigitChar c = true :=
    fun c hc => hd c (List.mem_of_mem_drop hc)
  rw [hf] at hmem
  refine ⟨m.take (m.length - 2), f1, f2, by rw [hf], ?_, ?_, ?_, ?_⟩
  · intro h
    have := congrArg List.length h
    rw [List.length_take] at this
    simp at this
    omega
  · exact fun c hc => hd c (List.mem_of_mem_take hc)
  · exact hmem f1 (by simp)
  · exact hmem f2 (by simp)

/-- Below `10 ^ 21` in magnitude, `toFixed(2)` has exactly two decimals. -/
theorem toFixed_twoDecimals (q : ℚ) (h : |q| < 10 ^ 21) :
    TwoDecimals (toFixed (JSNum.fin q) 2) := by
  obtain ⟨hne, hdig⟩ := natDigits_spec ⌊|q| * (10 : ℚ) ^ 2 + 1 / 2⌋.toNat
  set nd := natDigits ⌊|q| * (10 : ℚ) ^ 2 + 1 / 2⌋.toNat with hnd
  set m := List.replicate (2 + 1 - nd.length) '0' ++ nd with hm
  have hmlen : 3 ≤ m.length := by
    rw [hm, List.length_append, List.length_replicate]; omega
  have hmd : ∀ c ∈ m, isDigitChar c = true := by
    intro c hc
    rcases List.mem_append.mp hc with h1 | h1
    · rw [(List.mem_replicate.mp h1).2]; decide
    · exact hdig c h1
  obtain ⟨ds, f1, f2, e, hds, hdd, h1, h2⟩ := fixedBody_twoDecimals m hmlen hmd
  have hbody : toFixedChars (JSNum.fin q) 2 =
      if q < 0 then '-' :: (m.take (m.length - 2) ++ '.' :: m.drop (m.length - 2))
      else m.take (m.length - 2) ++ '.' :: m.drop (m.length - 2) := by
    simp only [toFixedChars, not_le.mpr h, if_false, ← hnd, ← hm]
    simp
  unfold TwoDecimals toFixed
  simp only [hbody]
  split_ifs with hneg
  · exact ⟨['-'], ds, f1, f2, by rw [e]; simp, Or.inr rfl, hds, hdd, h1, h2⟩
  · exact ⟨[], ds, f1, f2, by rw [e]; simp, Or.inl rfl, hds, hdd, h1, h2⟩

theorem pow10_eq_zpow (e : Int) : pow10 e = (10 : ℚ) ^ e := by
  unfold pow10
  split
  · next h =>
    conv_rhs => rw [← Int.toNat_of_nonneg h]
    rw [zpow_natCast]; push_cast; rfl
  · next h =>
    have h2 : e = -((-e).toNat : Int) := by
      rw [Int.toNat_of_nonneg (by omega)]; ring
    conv_rhs => rw [h2]
    rw [zpow_neg, zpow_natCast]; push_cast
    rw [one_div]

theorem pow10_pos (e : Int) : 0 < pow10 e := by
  rw [pow10_eq_zpow]; positivity

theorem pow10_add (a b : Int) : pow10 (a + b) = pow10 a * pow10 b := by
  simp only [pow10_eq_zpow]; exact zpow_add₀ (by norm_num) a b

theorem pow10_le_pow10 {a b : Int} (h : a ≤ b) : pow10 a ≤ pow10 b := by
  simp only [pow10_eq_zpow]; exact zpow_le_zpow_right₀ (by norm_num) h

theorem pow10_lt_pow10 {a b : Int} (h : a < b) : pow10 a < pow10 b := by
  simp only [pow10_eq_zpow]; exact zpow_lt_zpow_right₀ (by norm_num) h

theorem pow10_lt_iff {a b : Int} : pow10 a < pow10 b ↔ a < b := by
  constructor
  · intro h
    by_contra hc
    push_neg at hc
    have := pow10_le_pow10 hc
    linarith
  · exact pow10_lt_pow10

theorem pow10_natCast (n : Nat) : pow10 (n : Int) = ((10 ^ n : Nat) : ℚ) := by
  rw [pow10_eq_zpow, zpow_natCast]; push_cast; rfl

theorem decLen_zero (fuel : Nat) : decLen fuel 0 = 0 := by
  cases fuel <;> simp [decLen]

theorem decLen_spec (fuel : Nat) : ∀ n : Nat, 0 < n → n ≤ fuel →
    ∃ k, decLen fuel n = k + 1 ∧ 10 ^ k ≤ n ∧ n < 10 ^ (k + 1) := by
  induction fuel with
  | zero => intro n h1 h2; omega
  | succ f ih =>
    intro n h1 h2
    have hn : n ≠ 0 := by omega
    simp only [decLen, hn, if_false]
    by_cases h : n / 10 = 0
    · refine ⟨0, ?_, ?_, ?_⟩
      · rw [h, decLen_zero]
      · simpa using h1
      · have : n < 10 := by omega
        simpa using this
    · obtain ⟨k, hk, h3, h4⟩ := ih (n / 10) (by omega) (by omega)
      refine ⟨k + 1, by rw [hk], ?_, ?_⟩
      · rw [pow_succ]; omega
      · rw [pow_succ] at h4 ⊢; rw [pow_succ]; omega

/-- The decimal exponent brackets the value: `10 ^ (n - 1) ≤ x < 10 ^ n`. -/
theorem decExp_spec (x : ℚ) (hx : 0 < x) :
    pow10 (decExp x - 1) ≤ x ∧ x < pow10 (decExp x) := by
  have hnum : 0 < x.num.natAbs := Int.natAbs_pos.mpr (Rat.num_ne_zero.mpr hx.ne')
  obtain ⟨a, ha, ha1, ha2⟩ := decLen_spec _ _ hnum le_rfl
  obtain ⟨b, hb, hb1, hb2⟩ := decLen_spec _ _ x.den_pos le_rfl
  have habs : x = (x.num.natAbs : ℚ) / (x.den : ℚ) := by
    conv_lhs => rw [← Rat.num_div_den x]
    rw [Nat.cast_natAbs, Int.cast_abs, abs_of_pos (by exact_mod_cast Rat.num_pos.mpr hx)]
  have hd : (0 : ℚ) < x.den := by exact_mod_cast x.den_pos
  have ha1q : (10 : ℚ) ^ a ≤ x.num.natAbs := by exact_mod_cast ha1
  have ha2q : (x.num.natAbs : ℚ) < 10 ^ (a + 1) := by exact_mod_cast ha2
  have hb1q : (10 : ℚ) ^ b ≤ x.den := by exact_mod_cast hb1
  have hb2q : (x.den : ℚ) < 10 ^ (b + 1) := by exact_mod_cast hb2
  have hlow : pow10 ((a : Int) - b - 1) ≤ x := by
    rw [habs, pow10_eq_zpow, le_div_iff₀ hd]
    have : (10 : ℚ) ^ ((a : Int) - b - 1) * 10 ^ (b + 1) = 10 ^ a := by
      rw [← zpow_natCast, ← zpow_natCast, ← zpow_add₀ (by norm_num)]
      congr 1; push_cast; ring
    calc (10 : ℚ) ^ ((a : Int) - b - 1) * x.den
        ≤ (10 : ℚ) ^ ((a : Int) - b - 1) * 10 ^ (b + 1) := by
          apply mul_le_mul_of_nonneg_left hb2q.le; positivity
      _ = 10 ^ a := this
      _ ≤ _ := ha1q
  have hhigh : x < pow10 ((a : Int) - b + 1) := by
    rw [habs, pow10_eq_zpow, div_lt_iff₀ hd]
    have : (10 : ℚ) ^ ((a : Int) - b + 1) * 10 ^ b = 10 ^ (a + 1) := by
      rw [← zpow_natCast, ← zpow_natCast, ← zpow_add₀ (by norm_num)]
      congr 1; push_cast; ring
    calc (x.num.natAbs : ℚ) < 10 ^ (a + 1) := ha2q
      _ = (10 : ℚ) ^ ((a : Int) - b + 1) * 10 ^ b := this.symm
      _ ≤ _ := by apply mul_le_mul_of_nonneg_left hb1q; positivity
  unfold decExp
  simp only [ha, hb]
  have he : ((a + 1 : Nat) : Int) - ((b + 1 : Nat) : Int) = (a : Int) - b := by push_cast; ring
  rw [he]
  split
  · next h =>
    rw [show (a : Int) - b + 1 - 1 = a - b by ring]
    exact ⟨h, hhigh⟩
  · next h => exact ⟨hlow, lt_of_not_le h⟩

theorem decExp_bounds {x : ℚ} (h1 : 1 ≤ x) (h2 : x < 10 ^ 21) :
    1 ≤ decExp x ∧ decExp x ≤ 21 := by
  obtain ⟨a, b⟩ := decExp_spec x (by linarith)
  constructor
  · have : pow10 0 < pow10 (decExp x) := by
      have : pow10 0 = 1 := by rw [pow10_eq_zpow]; simp
      linarith
    exact pow10_lt_iff.mp this
  · have : pow10 (decExp x - 1) < pow10 21 := by
      have : pow10 21 = 10 ^ 21 := by rw [pow10_eq_zpow]; norm_cast
      linarith
    have := pow10_lt_iff.mp this
    omega

theorem round64_pow10 (n : Nat) (h : n ≤ 22) :
    round64 (((10 ^ n : Nat) : ℚ)) = JSNum.fin (((10 ^ n : Nat) : ℚ)) := by
  interval_cases n <;> decide!

theorem digitsAt_isSome_of_lo (x : ℚ) (n0 : Int) (k : Nat)
    (h : round64 ((⌊x / pow10 (n0 - k)⌋.toNat : ℚ) * pow10 (n0 - k)) = JSNum.fin x) :
    digitsAt x n0 k ≠ none := by
  unfold digitsAt
  simp only [h, decide_True, Bool.true_and]
  split_ifs <;> simp

/-- For `x < 10 ^ n0 ≤ 10 ^ 22` a significand found at length `k` has `k` digits and
exponent `n0`. -/
theorem digitsAt_shape (x : ℚ) (n0 : Int) (k : Nat) (hn : 0 ≤ n0) (hn2 : n0 ≤ 22)
    (hx : x < pow10 n0) (s k1 : Nat) (n : Int) (h : digitsAt x n0 k = some (s, k1, n)) :
    k1 = k ∧ n = n0 := by
  have hup : ∀ hi : Nat, round64 ((hi : ℚ) * pow10 (n0 - k)) = JSNum.fin x →
      (if hi = 10 ^ k then some ((1 : Nat), (1 : Nat), n0 + 1) else some (hi, k, n0)) =
        some (s, k1, n) → k1 = k ∧ n = n0 := by
    intro hi hr he
    split_ifs at he with h1
    · exfalso
      obtain ⟨m, hm⟩ : ∃ m : Nat, n0 = m := ⟨n0.toNat, by omega⟩
      have e1 : (hi : ℚ) * pow10 (n0 - k) = ((10 ^ m : Nat) : ℚ) := by
        rw [h1, ← pow10_natCast, ← pow10_natCast, ← pow10_add, ← hm]
        congr 1; ring
      rw [e1, round64_pow10 m (by omega)] at hr
      have : ((10 ^ m : Nat) : ℚ) = x := by injection hr
      rw [hm, pow10_natCast] at hx
      linarith
    · simp only [Option.some.injEq, Prod.mk.injEq] at he
      exact ⟨he.2.1.symm, he.2.2.symm⟩
  have hlo : ∀ lo : Nat, some (lo, k, n0) = some (s, k1, n) → k1 = k ∧ n = n0 := by
    intro lo he
    simp only [Option.some.injEq, Prod.mk.injEq] at he
    exact ⟨he.2.1.symm, he.2.2.symm⟩
  unfold digitsAt at h
  simp only at h
  generalize ⌊x / pow10 (n0 - k)⌋.toNat = lo at h
  by_cases okHi : round64 (((lo + 1 : Nat) : ℚ) * pow10 (n0 - k)) = JSNum.fin x
  · have hu := hup (lo + 1) okHi
    generalize (if lo + 1 = 10 ^ k then some ((1 : Nat), (1 : Nat), n0 + 1)
      else some (lo + 1, k, n0)) = up at h hu
    split_ifs at h
    all_goals first | exact hlo lo h | exact hu h
  · simp only [okHi, decide_False, Bool.and_false, Bool.false_eq_true, if_false] at h
    split_ifs at h
    · exact hlo lo h

/-- A successful search returns the first length at which a significand exists. -/
theorem shortestFrom_some (x : ℚ) (n0 : Int) (fuel : Nat) : ∀ (k0 : Nat) (r : Nat × Nat × Int),
    shortestFrom x n0 fuel k0 = some r →
    ∃ k, k0 ≤ k ∧ k < k0 + fuel ∧ digitsAt x n0 k = some r ∧
      ∀ j, k0 ≤ j → j < k → digitsAt x n0 j = none := by
  induction fuel with
  | zero => intro k0 r h; simp [shortestFrom] at h
  | succ f ih =>
    intro k0 r h
    simp only [shortestFrom] at h
    cases hd : digitsAt x n0 k0 with
    | some r1 =>
      rw [hd] at h
      simp only [Option.some.injEq] at h
      exact ⟨k0, le_rfl, by omega, by rw [hd, h], fun j h1 h2 => by omega⟩
    | none =>
      rw [hd] at h
      obtain ⟨k, h1, h2, h3, h4⟩ := ih (k0 + 1) r h
      refine ⟨k, by omega, by omega, h3, ?_⟩
      intro j hj1 hj2
      rcases Nat.eq_or_lt_of_le hj1 with e | e
      · rw [← e]; exact hd
      · exact h4 j e hj2

/-- A failed search found no significand at any length tried. -/
theorem shortestFrom_none (x : ℚ) (n0 : Int) (fuel : Nat) : ∀ (k0 : Nat),
    shortestFrom x n0 fuel k0 = none →
    ∀ j, k0 ≤ j → j < k0 + fuel → digitsAt x n0 j = none := by
  induction fuel with
  | zero => intro k0 _ j h1 h2; omega
  | succ f ih =>
    intro k0 h j h1 h2
    simp only [shortestFrom] at h
    cases hd : digitsAt x n0 k0 with
    | some r1 => rw [hd] at h; simp at h
    | none =>
      rw [hd] at h
      rcases Nat.eq_or_lt_of_le h1 with e | e
      · rw [← e]; exact hd
      · exact ih (k0 + 1) h j e (by omega)

/-- A positive integer binary64 value below `10 ^ 21` is printed as digits followed by
zeros. -/
theorem posToString_int (N : Nat) (h1 : 1 ≤ N) (h2 : (N : ℚ) < 10 ^ 21)
    (hd : round64 (N : ℚ) = JSNum.fin N) :
    ∃ s z : Nat, posToString (N : ℚ) = natDigits s ++ List.replicate z '0' := by
  have hx1 : (1 : ℚ) ≤ N := by exact_mod_cast h1
  obtain ⟨hn1, hn2⟩ := decExp_bounds hx1 h2
  obtain ⟨_, hxn⟩ := decExp_spec (N : ℚ) (by linarith)
  have hself : digitsAt (N : ℚ) (decExp (N : ℚ)) (decExp (N : ℚ)).toNat ≠ none := by
    apply digitsAt_isSome_of_lo
    have e0 : decExp (N : ℚ) - ((decExp (N : ℚ)).toNat : Int) = 0 := by omega
    have e1 : pow10 0 = 1 := by rw [pow10_eq_zpow]; simp
    rw [e0, e1, div_one, mul_one, Int.floor_natCast, Int.toNat_ofNat]
    exact hd
  unfold posToString shortestDigits
  simp only
  cases hsf : shortestFrom (N : ℚ) (decExp (N : ℚ)) 17 1 with
  | none =>
    have h17 : (17 : Int) ≤ decExp (N : ℚ) := by
      by_contra hc
      exact hself (shortestFrom_none _ _ _ _ hsf _ (by omega) (by omega))
    simp only
    rw [if_pos ⟨by exact_mod_cast h17, hn2⟩]
    exact ⟨_, _, rfl⟩
  | some r =>
    obtain ⟨s, k, n⟩ := r
    obtain ⟨k1, hk1, hk2, hdig, hnone⟩ := shortestFrom_some _ _ _ _ _ hsf
    obtain ⟨ek, en⟩ := digitsAt_shape _ _ _ (by omega) (by omega) hxn _ _ _ hdig
    have hle : (k1 : Int) ≤ decExp (N : ℚ) := by
      by_contra hc
      exact hself (hnone _ (by omega) (by omega))
    simp only
    rw [if_pos ⟨by rw [ek, en]; exact hle, by rw [en]; exact hn2⟩]
    exact ⟨_, _, rfl⟩

/-- An integer binary64 value below `10 ^ 21` in magnitude is printed without decimals. -/
theorem numberToString_int_noDecimals (q : ℚ) (hd : IsDouble (JSNum.fin q)) (hi : q.den = 1)
    (hb : |q| < 10 ^ 21) : NoDecimals (numberToString (JSNum.fin q)) := by
  have key : ∀ x : ℚ, 0 < x → x.den = 1 → x < 10 ^ 21 → round64 x = JSNum.fin x →
      ∃ ds, posToString x = ds ∧ ds ≠ [] ∧ ∀ c ∈ ds, isDigitChar c = true := by
    intro x hx hxi hxb hxd
    have hnum : 0 < x.num := Rat.num_pos.mpr hx
    obtain ⟨N, hN⟩ : ∃ N : Nat, x.num = N := ⟨x.num.toNat, by omega⟩
    have hxN : x = (N : ℚ) := by
      rw [← Rat.coe_int_num_of_den_eq_one hxi, hN]; simp
    have hN1 : 1 ≤ N := by omega
    rw [hxN] at hxb hxd ⊢
    obtain ⟨s, z, e⟩ := posToString_int N hN1 hxb hxd
    obtain ⟨hne, hdig⟩ := natDigits_spec s
    refine ⟨_, e, by simp [hne], ?_⟩
    intro c hc
    rcases List.mem_append.mp hc with h | h
    · exact hdig c h
    · rw [(List.mem_replicate.mp h).2]; decide
  have hd' : round64 q = JSNum.fin q := hd
  unfold NoDecimals numberToString
  simp only [numberToChars]
  rcases lt_trichotomy q 0 with h | h | h
  · rw [if_neg h.ne, if_pos h]
    obtain ⟨ds, e, hne, hdig⟩ := key (-q) (neg_pos.mpr h) (by simpa using hi)
      (by rwa [abs_of_neg h] at hb) (by rw [round64_neg, hd']; rfl)
    exact ⟨['-'], ds, by rw [e]; rfl, Or.inr rfl, hne, hdig⟩
  · rw [if_pos h]
    exact ⟨[], ['0'], rfl, Or.inl rfl, by simp, by simp; decide⟩
  · rw [if_neg h.ne', if_neg (not_lt.mpr h.le)]
    obtain ⟨ds, e, hne, hdig⟩ := key q h hi (by rwa [abs_of_pos h] at hb) hd'
    exact ⟨[], ds, by rw [e]; rfl, Or.inl rfl, hne, hdig⟩

/-- C9 as stated fails: `Infinity` is not an integer and is rendered `Infinity`, without
two decimals; the integer `1.5 * 10 ^ 21` is rendered `1.5e+21`, with a decimal.  Both
reach `formatNumber` through the note of a conversion of the inputs `1e400` and `1.5e21`. -/
theorem formatNumber_counterexample :
    isInteger JSNum.pinf = false ∧ formatNumber JSNum.pinf = "Infinity" ∧
    ¬ TwoDecimals (formatNumber JSNum.pinf) ∧
    IsDouble (JSNum.fin (15 * 10 ^ 20)) ∧ isInteger (JSNum.fin (15 * 10 ^ 20)) = true ∧
    formatNumber (JSNum.fin (15 * 10 ^ 20)) = "1.5e+21" ∧
    ¬ NoDecimals (formatNumber (JSNum.fin (15 * 10 ^ 20))) ∧
    (submit { sampleDom with input := "1e400" } 0).resultNote = "Converted from Infinity °C" ∧
    (submit { sampleDom with input := "1.5e21" } 0).resultNote =
      "Converted from 1.5e+21 °C" := by
  have e1 : formatNumber JSNum.pinf = "Infinity" := by decide!
  have e2 : formatNumber (JSNum.fin (15 * 10 ^ 20)) = "1.5e+21" := by decide!
  refine ⟨by decide!, e1, ?_, by decide!, by decide!, e2, ?_, by decide!, by decide!⟩
  · rw [e1]
    rintro ⟨sign, ds, f1, f2, h, _⟩
    have hm : '.' ∈ "Infinity".data := by rw [h]; simp
    exact absurd hm (by decide)
  · rw [e2]
    rintro ⟨sign, ds, h, hs, _, hd⟩
    have hm : '.' ∈ sign ++ ds := by rw [← h]; decide
    rcases List.mem_append.mp hm with h1 | h1
    · rcases hs with rfl | rfl
      · simp at h1
      · exact absurd h1 (by decide)
    · exact absurd (hd _ h1) (by decide)

/-- C9 amended: for every finite Number `q`, `formatNumber` renders an integer below
`10 ^ 21` in magnitude without decimals and a non-integer with exactly two decimal places;
`formatNumber(5) = "5"` and `formatNumber(5.5) = "5.50"`; NaN and the infinities are
rendered by name. -/
theorem formatNumber_finite (q : ℚ) (hd : IsDouble (JSNum.fin q)) :
    (isInteger (JSNum.fin q) = true → |q| < 10 ^ 21 → NoDecimals (formatNumber (JSNum.fin q))) ∧
    (isInteger (JSNum.fin q) = false → TwoDecimals (formatNumber (JSNum.fin q))) ∧
    formatNumber 5 = "5" ∧ formatNumber (lit (11 / 2)) = "5.50" ∧
    formatNumber JSNum.nan = "NaN" ∧ formatNumber JSNum.pinf = "Infinity" ∧
    formatNumber JSNum.ninf = "-Infinity" := by
  refine ⟨?_, ?_, by decide!, by decide!, by decide!, by decide!, by decide!⟩
  · intro hi hb
    have hden : q.den = 1 := by simpa [isInteger] using hi
    unfold formatNumber
    rw [if_pos hi]
    exact numberToString_int_noDecimals q hd hden hb
  · intro hi
    have hden : q.den ≠ 1 := by simpa [isInteger] using hi
    unfold formatNumber
    rw [hi]
    simp only [Bool.false_eq_true, if_false]
    apply toFixed_twoDecimals
    have h52 := double_nonint_small hd hden
    have : pow2 52 < 10 ^ 21 := by decide!
    linarith

/-- C9 instance: `-2.5` is rendered with exactly two decimals. -/
theorem formatNumber_finite_witness :
    TwoDecimals (formatNumber (JSNum.fin (-5 / 2))) :=
  (formatNumber_finite (-5 / 2) (by decide!)).2.1 (by decide!)

/-! ### Thermometer fill (C7) -/

/-- The clamp to `[0, 1]` of a Number other than NaN is a finite value in `[0, 1]`. -/
theorem clamp_unit (x : JSNum) (hx : x ≠ JSNum.nan) :
    ∃ p : ℚ, mathMax 0 (mathMin 1 x) = JSNum.fin p ∧ 0 ≤ p ∧ p ≤ 1 ∧
      (AtMost x 0 → p = 0) ∧ (AtLeast x 1 → p = 1) := by
  cases x with
  | nan => exact absurd rfl hx
  | pinf =>
    refine ⟨1, by decide!, by norm_num, le_rfl, ?_, fun _ => rfl⟩
    intro h; exact absurd h (by simp [AtMost])
  | ninf =>
    refine ⟨0, by decide!, le_rfl, by norm_num, fun _ => rfl, ?_⟩
    intro h; exact absurd h (by simp [AtLeast])
  | fin b =>
    simp only [ofNat_eq, mathMin, mathMax, lt, AtMost, AtLeast, Nat.cast_one, Nat.cast_zero]
    by_cases h1 : b < 1
    · by_cases h0 : 0 < b
      · refine ⟨b, by simp [h1, h0, mathMax, lt], h0.le, h1.le, ?_, ?_⟩
        · intro h; linarith
        · intro h; linarith
      · refine ⟨0, by simp [h1, h0, mathMax, lt], le_rfl, by norm_num, fun _ => rfl, ?_⟩
        intro h; linarith
    · refine ⟨1, by simp [h1, mathMax, lt], by norm_num, le_rfl, ?_, fun _ => rfl⟩
      intro h; linarith

theorem div_atMost_zero {x : JSNum} (h : AtMost x 0) : AtMost (div x (JSNum.fin 80)) 0 := by
  cases x with
  | nan => exact h
  | pinf => exact h
  | ninf => norm_num [div, infOfSign, AtMost]
  | fin a =>
    have ha : a ≤ 0 := h
    simp only [div, show (80 : ℚ) ≠ 0 by norm_num, if_false]
    exact round64_atMost (div_nonpos_of_nonpos_of_nonneg ha (by norm_num)) rq_consts.1
      (by have := rq_consts.2.2.2.2.1; linarith)

theorem div_atLeast_one {x : JSNum} (h : AtLeast x 80) : AtLeast (div x (JSNum.fin 80)) 1 := by
  cases x with
  | nan => exact h
  | ninf => exact h
  | pinf => norm_num [div, infOfSign, AtLeast]
  | fin a =>
    have ha : 80 ≤ a := h
    simp only [div, show (80 : ℚ) ≠ 0 by norm_num, if_false]
    refine round64_atLeast ?_ rq_consts.2.1 (by have := rq_consts.2.2.2.2.2; linarith)
    rw [le_div_iff₀ (by norm_num)]; linarith

theorem fill_of_pct {p : ℚ} (h0 : 0 ≤ p) (h1 : p ≤ 1) :
    ∃ n : Nat, n ≤ 100 ∧ mathRound (mul (JSNum.fin p) 100) = JSNum.fin n ∧
      (p = 0 → n = 0) ∧ (p = 1 → n = 100) := by
  obtain ⟨c0, c1, c80, c100, b1, b2⟩ := rq_consts
  obtain ⟨e, l, u⟩ := @round64_fin_of_bounds (p * 100) 0 100
    (by positivity) (by linarith) c0 c100 b2 b1
  have hm : mul (JSNum.fin p) 100 = JSNum.fin (rq (p * 100)) := by
    rw [← e]; simp [mul, ofNat_eq]
  have hf0 : 0 ≤ ⌊rq (p * 100) + 1 / 2⌋ := Int.floor_nonneg.mpr (by linarith)
  have hf1 : ⌊rq (p * 100) + 1 / 2⌋ ≤ 100 := by
    have : ⌊rq (p * 100) + 1 / 2⌋ < 101 := by
      rw [Int.floor_lt]; push_cast; linarith
    omega
  refine ⟨⌊rq (p * 100) + 1 / 2⌋.toNat, by omega, ?_, ?_, ?_⟩
  · rw [hm]; simp only [mathRound]
    congr 1
    rw [← Int.cast_natCast, Int.toNat_of_nonneg hf0]
  · intro hp; subst hp
    have : ⌊(0 : ℚ) + 1 / 2⌋ = 0 := by rw [Int.floor_eq_iff]; norm_num
    rw [zero_mul, c0, this]; rfl
  · intro hp; subst hp
    have : ⌊(100 : ℚ) + 1 / 2⌋ = 100 := by rw [Int.floor_eq_iff]; norm_num
    rw [one_mul, c100, this]; rfl

theorem fill_add_eq (c : JSNum) : sub c (JSNum.fin (-30)) = add c 30 := by
  simp [sub, neg, ofNat_eq]

theorem fill_range_eq : add 50 30 = JSNum.fin 80 := by decide!

theorem fillPercent_eq (c : JSNum) : fillPercent c =
    mathRound (mul (mathMax 0 (mathMin 1 (div (add c 30) (JSNum.fin 80)))) 100) := by
  simp only [fillPercent, thermPct, fill_add_eq, fill_range_eq]

theorem fillPercent_eq_fillSpec (c : JSNum) : fillPercent c = fillSpec c := by
  rw [fillPercent_eq]
  simp only [fillSpec, clamp, ofNat_eq, Nat.cast_ofNat]

theorem add_thirty_ne_nan {c : JSNum} (hc : c ≠ JSNum.nan) : add c 30 ≠ JSNum.nan := by
  cases c with
  | nan => exact absurd rfl hc
  | pinf => simp [add, ofNat_eq]
  | ninf => simp [add, ofNat_eq]
  | fin q => simpa [add, ofNat_eq] using round64_ne_nan (q + 30)

theorem div_eighty_ne_nan {x : JSNum} (hx : x ≠ JSNum.nan) : div x (JSNum.fin 80) ≠ JSNum.nan := by
  cases x with
  | nan => exact absurd rfl hx
  | pinf => norm_num [div, infOfSign]; exact fun h => JSNum.noConfusion h
  | ninf => norm_num [div, infOfSign]; exact fun h => JSNum.noConfusion h
  | fin q => simpa [div] using round64_ne_nan (q / 80)

/-- The fill percentage of a Number other than NaN is a whole number in `0..100`, `0` at
and below `-30` and `100` at and above `50`. -/
theorem fillPercent_range (c : JSNum) (hc : c ≠ JSNum.nan) :
    ∃ n : Nat, n ≤ 100 ∧ fillPercent c = JSNum.fin n ∧
      (AtMost c (-30) → n = 0) ∧ (AtLeast c 50 → n = 100) := by
  have e1 := fillPercent_eq c
  obtain ⟨p, hp, p0, p1, pz, po⟩ := clamp_unit _ (div_eighty_ne_nan (add_thirty_ne_nan hc))
  obtain ⟨n, hn, hf, hz, ho⟩ := fill_of_pct p0 p1
  refine ⟨n, hn, by rw [e1, hp, hf], ?_, ?_⟩
  · intro h
    apply hz; apply pz; apply div_atMost_zero
    cases c with
    | nan => exact absurd rfl hc
    | pinf => exact absurd h (by simp [AtMost])
    | ninf => simp [add, ofNat_eq, AtMost]
    | fin q =>
      have hq : q ≤ -30 := h
      simp only [add, ofNat_eq]
      exact round64_atMost (by push_cast; linarith) rq_consts.1 (by have := rq_consts.2.2.2.2.1; linarith)
  · intro h
    apply ho; apply po; apply div_atLeast_one
    cases c with
    | nan => exact absurd rfl hc
    | ninf => exact absurd h (by simp [AtLeast])
    | pinf => simp [add, ofNat_eq, AtLeast]
    | fin q =>
      have hq : 50 ≤ q := h
      simp only [add, ofNat_eq]
      exact round64_atLeast (by push_cast; linarith) rq_consts.2.2.1 (by have := rq_consts.2.2.2.2.2; linarith)

/-- C7: for every Celsius value `c` (any Number other than NaN) the fill percentage that
`setThermVisual` writes is `round(clamp((c + 30) / 80, 0, 1) * 100)`, a whole number in
`0..100`; it is `0` for every `c ≤ -30` (so for `-100`), `100` for every `c ≥ 50` (so for
`1000`), and `50`, strictly between, for `c = 10`. -/
theorem setThermVisual_fill (d : Dom) (c : JSNum) (hc : c ≠ JSNum.nan) :
    (setThermVisual d c).thermHeight = numberToString (fillPercent c) ++ "%" ∧
    fillPercent c = fillSpec c ∧
    (∃ n : Nat, n ≤ 100 ∧ fillPercent c = JSNum.fin n) ∧
    (c = JSNum.ninf ∨ (∃ q, c = JSNum.fin q ∧ q ≤ -30) → fillPercent c = 0) ∧
    (c = JSNum.pinf ∨ (∃ q, c = JSNum.fin q ∧ 50 ≤ q) → fillPercent c = 100) ∧
    fillPercent (JSNum.fin (-100)) = 0 ∧ fillPercent 1000 = 100 ∧
    fillPercent 10 = 50 ∧ lt 0 (fillPercent 10) = true ∧ lt (fillPercent 10) 100 = true := by
  obtain ⟨n, hn, hf, hz, ho⟩ := fillPercent_range c hc
  refine ⟨rfl, fillPercent_eq_fillSpec c, ⟨n, hn, hf⟩, ?_, ?_, by decide!, by decide!,
    by decide!, by decide!, by decide!⟩
  · intro h
    have : AtMost c (-30) := by
      rcases h with rfl | ⟨q, rfl, hq⟩
      · trivial
      · exact hq
    rw [hf, hz this]; rfl
  · intro h
    have : AtLeast c 50 := by
      rcases h with rfl | ⟨q, rfl, hq⟩
      · trivial
      · exact hq
    rw [hf, ho this]; rfl

/-- C7 instance: at `c = 37` the fill is a whole number of percent in `0..100`. -/
theorem setThermVisual_fill_witness :
    ∃ n : Nat, n ≤ 100 ∧ fillPercent 37 = JSNum.fin n :=
  (setThermVisual_fill sampleDom 37 (by decide!)).2.2.1

/-! ### Animation frames (C10) -/

theorem eased_one : eased 1 = 1 := by decide!

theorem strictEq_one : strictEq 1 1 = true := by decide!

theorem mathRound_of_isInteger {x : JSNum} (h : isInteger x = true) : mathRound x = x := by
  cases x with
  | nan => rfl
  | pinf => rfl
  | ninf => rfl
  | fin q =>
    have hd : q.den = 1 := by simpa [isInteger] using h
    have hq : q = (q.num : ℚ) := by
      conv_lhs => rw [← Rat.num_div_den q, hd]
      simp
    simp only [mathRound]
    congr 1
    rw [hq]
    have : ⌊(q.num : ℚ) + 1 / 2⌋ = q.num := by
      rw [Int.floor_eq_iff]; constructor <;> linarith
    rw [this]

/-- At or after `start + duration` the progress is `1`. -/
theorem progress_done (a : Anim) (s n dur : ℚ) (hs : a.start = JSNum.fin s)
    (hdur : a.duration = JSNum.fin dur) (hd : IsDouble (JSNum.fin dur)) (hpos : 0 < dur)
    (hle : dur ≤ n - s) : progress a (JSNum.fin n) = 1 := by
  obtain ⟨e, b1, b2⟩ := isDouble_fin hd
  obtain ⟨c0, c1, c80, c100, _, b0⟩ := rq_consts
  have h1 : AtLeast (sub (JSNum.fin n) (JSNum.fin s)) dur := by
    simp only [sub, neg, add]
    exact round64_atLeast (by linarith) e b1
  have h2 : AtLeast (div (sub (JSNum.fin n) (JSNum.fin s)) (JSNum.fin dur)) 1 := by
    generalize sub (JSNum.fin n) (JSNum.fin s) = x at h1
    cases x with
    | nan => exact absurd h1 (by simp [AtLeast])
    | ninf => exact absurd h1 (by simp [AtLeast])
    | pinf => simp [div, infOfSign, hpos.le, AtLeast]
    | fin y =>
      have hy : dur ≤ y := h1
      simp only [div, hpos.ne', if_false]
      refine round64_atLeast ?_ c1 (by linarith)
      rw [le_div_iff₀ hpos]; linarith
  unfold progress
  rw [hs, hdur]
  generalize div (sub (JSNum.fin n) (JSNum.fin s)) (JSNum.fin dur) = y at h2
  cases y with
  | nan => exact absurd h2 (by simp [AtLeast])
  | ninf => exact absurd h2 (by simp [AtLeast])
  | pinf => simp [mathMin, lt, ofNat_eq]
  | fin y =>
    have hy : 1 ≤ y := h2
    simp only [mathMin, lt, ofNat_eq, Nat.cast_one, decide_eq_true_eq]
    split_ifs with h
    · rfl
    · have : y = 1 := le_antisymm (not_lt.mp h) hy
      rw [this]

/-- The frame at progress `1`. -/
theorem frame_final (a : Anim) (now : JSNum) (d : Dom) (ht : progress a now = 1) :
    frameValue a now = add a.src (sub a.dst a.src) ∧
    (step a now d).frames = d.frames ∧
    (step a now d).resultValue =
      (if isInteger a.dst then formatNumber (mathRound (add a.src (sub a.dst a.src)))
       else formatNumber (add a.src (sub a.dst a.src))) ∧
    (add a.src (sub a.dst a.src) = a.dst → (step a now d).resultValue = formatNumber a.dst) := by
  have hv : frameValue a now = add a.src (sub a.dst a.src) := by
    simp only [frameValue, ht, eased_one, mul_one_of_isDouble (isDouble_sub _ _)]
  have hlt : lt (1 : JSNum) 1 = false := by decide!
  have htext : (step a now d).resultValue =
      (if isInteger a.dst then formatNumber (mathRound (add a.src (sub a.dst a.src)))
       else formatNumber (add a.src (sub a.dst a.src))) := by
    simp only [step, frameText, hv, ht, strictEq_one, Bool.and_true]
  refine ⟨hv, ?_, htext, ?_⟩
  · simp [step, frameAgain, ht, hlt]
  · intro h
    rw [htext, h]
    split_ifs with hi
    · rw [mathRound_of_isInteger hi]
    · rfl

/-- A frame at progress below `1` requests exactly one more frame. -/
theorem frame_running (a : Anim) (now : JSNum) (d : Dom) (ht : lt (progress a now) 1 = true) :
    (step a now d).frames = d.frames ++ [a] := by
  simp [step, frameAgain, ht]

theorem snap_consts : pow2 (-1022) ≤ 1 ∧ (10 : ℚ) ^ 15 ≤ pow2 1000 ∧
    (10 : ℚ) ^ 15 * pow2 (-53) ≤ 1 / 8 := by decide!

/-- The snap of line 46: for magnitudes up to `10 ^ 14` and a whole target, rounding the
binary64 value of `from + (to - from)` gives the target. -/
theorem frame_snap (a b : ℚ) (ha : |a| ≤ 10 ^ 14) (hb : |b| ≤ 10 ^ 14) (hi : b.den = 1) :
    mathRound (add (JSNum.fin a) (sub (JSNum.fin b) (JSNum.fin a))) = JSNum.fin b := by
  obtain ⟨k1, k2, k3⟩ := snap_consts
  have hp53 : 0 < pow2 (-53) := pow2_pos _
  have ha0 := abs_nonneg a
  -- first rounding: `to - from`
  obtain ⟨b1, e1, h1, m1⟩ := runOp_approx (ArithOp.addc (-a)) b b (10 ^ 14) 0 rfl
    (by simp only [opMag, opGain, abs_neg]; linarith)
    (by simp only [opMag, opGain, abs_neg]; linarith)
    (by simp) hb
  simp only [opMag, opGain, exactOp, abs_neg, mul_zero, zero_add, add_zero] at h1 m1
  have hd1 : (10 ^ 14 + |a|) * pow2 (-53) ≤ 1 / 8 := by
    have : (10 ^ 14 + |a|) * pow2 (-53) ≤ (10 : ℚ) ^ 15 * pow2 (-53) :=
      mul_le_mul_of_nonneg_right (by linarith) hp53.le
    linarith
  -- second rounding: `from + (to - from)`
  obtain ⟨b2, e2, h2, _⟩ := runOp_approx (ArithOp.addc a) b1 (b + -a) (10 ^ 14 + |a|)
    ((10 ^ 14 + |a|) * pow2 (-53)) rfl
    (by simp only [opMag, opGain]; linarith [mul_nonneg (by linarith : (0 : ℚ) ≤ 10 ^ 14 + |a|) hp53.le])
    (by simp only [opMag, opGain]; linarith)
    h1 m1
  simp only [opMag, opGain, exactOp, one_mul] at h2
  have hd2 : |b2 - b| ≤ 3 / 8 := by
    have e : b + -a + a = b := by ring
    rw [e] at h2
    have : (10 ^ 14 + |a| + |a| + (10 ^ 14 + |a|) * pow2 (-53)) * pow2 (-53) ≤ 1 / 4 := by
      have h3 : 10 ^ 14 + |a| + |a| + (10 ^ 14 + |a|) * pow2 (-53) ≤ 2 * 10 ^ 15 := by
        linarith
      have := mul_le_mul_of_nonneg_right h3 hp53.le
      linarith
    linarith
  have hsub : sub (JSNum.fin b) (JSNum.fin a) = JSNum.fin b1 := by
    rw [← e1]; rfl
  have hadd : add (JSNum.fin a) (JSNum.fin b1) = JSNum.fin b2 := by
    rw [← e2]
    simp only [runOp, add, add_comm]
  rw [hsub, hadd]
  clear k1 k2 k3 e1 e2 hsub hadd
  show JSNum.fin ((⌊b2 + 1 / 2⌋ : Int) : ℚ) = JSNum.fin b
  congr 1
  have hbz : b = (b.num : ℚ) := (Rat.coe_int_num_of_den_eq_one hi).symm
  rw [abs_le] at hd2
  have : ⌊b2 + 1 / 2⌋ = b.num := by
    rw [Int.floor_eq_iff]
    rw [← hbz]
    constructor <;> linarith
  rw [this]
  exact hbz.symm

/-- C10 as stated fails: animating from `10 ^ 16` to `1`, the frame at `t = 1` computes
`10 ^ 16 + (1 - 10 ^ 16) * 1 = 0` in binary64 and displays `0`, not `formatNumber(1)`.
The page reaches it: after `10000000000000000` is shown (submit at time `0`, frame at
`700`), a submit of `1` at time `1000` ends, in the frame at `1700`, showing `0`. -/
theorem animate_counterexample :
    IsDouble (JSNum.fin (10 ^ 16)) ∧
    progress (Anim.mk 0 (JSNum.fin (10 ^ 16)) 1 700) 700 = 1 ∧
    frameValue (Anim.mk 0 (JSNum.fin (10 ^ 16)) 1 700) 700 = 0 ∧
    frameText (Anim.mk 0 (JSNum.fin (10 ^ 16)) 1 700) 700 = "0" ∧
    formatNumber 1 = "1" ∧
    (runFrames (submit { sampleDom with input := "10000000000000000", toUnit := "C" } 0)
      700).resultValue = "10000000000000000" ∧
    (runFrames (submit { runFrames (submit
        { sampleDom with input := "10000000000000000", toUnit := "C" } 0) 700
        with input := "1" } 1000) 1700).resultValue = "0" ∧
    (runFrames (submit { runFrames (submit
        { sampleDom with input := "10000000000000000", toUnit := "C" } 0) 700
        with input := "1" } 1000) 1700).frames = [] := by decide!

/-- C10 amended: `eased(1) = 1`; a frame at or after `start + duration` has `t = 1`; the
frame at `t = 1` computes `from + (to - from)` in binary64, displays `formatNumber` of it
(rounded to an integer first when `to` is whole) and schedules no further frame; when that
sum returns `to`, as it does for `from = 0`, the display is `formatNumber(to)`, and so it
is for every whole `to` when both magnitudes are at most `10 ^ 14`; every frame with
`t < 1` schedules exactly one more. -/
theorem animate_end_state (a : Anim) (now : JSNum) (d : Dom) (hdst : IsDouble a.dst) :
    eased 1 = 1 ∧
    (∀ s n dur : ℚ, a.start = JSNum.fin s → now = JSNum.fin n → a.duration = JSNum.fin dur →
      IsDouble (JSNum.fin dur) → 0 < dur → dur ≤ n - s → progress a now = 1) ∧
    (progress a now = 1 →
      frameValue a now = add a.src (sub a.dst a.src) ∧
      (step a now d).frames = d.frames ∧
      (step a now d).resultValue =
        (if isInteger a.dst then formatNumber (mathRound (add a.src (sub a.dst a.src)))
         else formatNumber (add a.src (sub a.dst a.src))) ∧
      (add a.src (sub a.dst a.src) = a.dst →
        frameValue a now = a.dst ∧ (step a now d).resultValue = formatNumber a.dst) ∧
      (∀ p q : ℚ, a.src = JSNum.fin p → a.dst = JSNum.fin q → |p| ≤ 10 ^ 14 →
        |q| ≤ 10 ^ 14 → isInteger a.dst = true →
        (step a now d).resultValue = formatNumber a.dst)) ∧
    (a.src = 0 → add a.src (sub a.dst a.src) = a.dst) ∧
    (lt (progress a now) 1 = true → (step a now d).frames = d.frames ++ [a]) := by
  refine ⟨eased_one, ?_, ?_, ?_, frame_running a now d⟩
  · intro s n dur hs hn hdur hd hpos hle
    rw [hn]
    exact progress_done a s n dur hs hdur hd hpos hle
  · intro ht
    obtain ⟨h1, h2, h3, h4⟩ := frame_final a now d ht
    refine ⟨h1, h2, h3, fun h => ⟨by rw [h1, h], h4 h⟩, ?_⟩
    intro p q hp hq hpb hqb hi
    rw [h3, if_pos hi, hp, hq]
    rw [hq] at hi
    rw [frame_snap p q hpb hqb (by simpa [isInteger] using hi)]
  · intro h0
    rw [h0]
    exact add_zero_sub_zero hdst

/-- C10 instance: the first animation of a page, from `0` to `212` over `700` ms, shows
`212` in the frame at time `700` and stops. -/
theorem animate_end_state_witness :
    (step (Anim.mk 0 0 212 700) 700 sampleDom).resultValue = formatNumber 212 ∧
    (step (Anim.mk 0 0 212 700) 700 sampleDom).frames = [] :=
  have h := animate_end_state (Anim.mk 0 0 212 700) 700 sampleDom (by decide!)
  have ht : progress (Anim.mk 0 0 212 700) 700 = 1 :=
    h.2.1 0 700 700 rfl rfl rfl (by decide!) (by norm_num) (by norm_num)
  ⟨((h.2.2.1 ht).2.2.2.1 (h.2.2.2.1 rfl)).2, (h.2.2.1 ht).2.1⟩

/-! ### Submit handler (C3, C4, C5) -/

theorem isNaN_eq_false {x : JSNum} (h : x ≠ JSNum.nan) : isNaN x = false := by
  cases x <;> simp_all [isNaN]

/-- The missing-value branch of the submit handler. -/
theorem submit_missing (d : Dom) (now : JSNum) (h : jsTrim d.input = "") :
    submit d now = { d with message := missingValueMsg, result := "", inputFocused := true } := by
  simp [submit, clearError, showError, focusInput, h]

/-- The invalid-number branch of the submit handler. -/
theorem submit_invalid (d : Dom) (now : JSNum) (h : jsTrim d.input ≠ "")
    (hn : stringToNumber (jsTrim d.input) = JSNum.nan) :
    submit d now = { d with message := invalidNumberMsg, result := "", inputFocused := true } := by
  simp [submit, clearError, showError, focusInput, h, hn, isNaN]

/-- The `from === to` branch of the submit handler. -/
theorem submit_same (d : Dom) (now : JSNum) (h : jsTrim d.input ≠ "")
    (hn : stringToNumber (jsTrim d.input) ≠ JSNum.nan) (hu : d.fromUnit = d.toUnit) :
    submit d now =
      setThermVisual
        { d with
          message := "",
          frames := d.frames ++ [Anim.mk now (orZero (stringToNumber d.resultValue))
            (stringToNumber (jsTrim d.input)) 700],
          resultUnit := textContentOf (unitLabel d.toUnit),
          resultNote := "No conversion needed (" ++ interpolate (unitLabel d.fromUnit) ++ ")" }
        (toNumber (toCelsius (stringToNumber (jsTrim d.input)) d.fromUnit)) := by
  simp [submit, clearError, animateNumber, h, isNaN_eq_false hn, hu]

/-- The conversion branch of the submit handler. -/
theorem submit_convert (d : Dom) (now : JSNum) (h : jsTrim d.input ≠ "")
    (hn : stringToNumber (jsTrim d.input) ≠ JSNum.nan) (hu : d.fromUnit ≠ d.toUnit) :
    submit d now =
      persist (setThermVisual
        { d with
          message := "",
          frames := d.frames ++ [Anim.mk now (orZero (stringToNumber d.resultValue))
            (toNumber (fromCelsius (toNumber (toCelsius (stringToNumber (jsTrim d.input))
              d.fromUnit)) d.toUnit)) 700],
          resultUnit := textContentOf (unitLabel d.toUnit),
          resultNote := "Converted from " ++ formatNumber (stringToNumber (jsTrim d.input)) ++ " " ++
            interpolate (unitLabel d.fromUnit) }
        (toNumber (toCelsius (stringToNumber (jsTrim d.input)) d.fromUnit)))
        (stringToNumber (jsTrim d.input)) d.fromUnit d.toUnit := by
  simp [submit, clearError, animateNumber, h, isNaN_eq_false hn, hu]

theorem trimChars_of_all_white (cs : List Char) (h : ∀ c ∈ cs, isWhite c = true) :
    trimChars cs = [] := by
  have : cs.dropWhile isWhite = [] := by
    rw [List.dropWhile_eq_nil_iff]; exact h
  simp [trimChars, this]

/-- C3: a valid submit with `from = to = u` starts the animation towards exactly the
parsed value `v` (no arithmetic is applied to it, although the arithmetic round trip can
change a value), labels the result with the unit, and drives the thermometer with
`toCelsius(v, u)`. -/
theorem submit_identity (d : Dom) (now v : JSNum) (u : String) (hu : u ∈ ["C", "F", "K"])
    (hfrom : d.fromUnit = u) (hto : d.toUnit = u) (hraw : jsTrim d.input ≠ "")
    (hv : stringToNumber (jsTrim d.input) = v) (hnan : v ≠ JSNum.nan) :
    (submit d now).frames =
      d.frames ++ [Anim.mk now (orZero (stringToNumber d.resultValue)) v 700] ∧
    (submit d now).message = "" ∧
    (submit d now).resultUnit = textContentOf (unitLabel u) ∧
    (submit d now).resultNote = "No conversion needed (" ++ interpolate (unitLabel u) ++ ")" ∧
    (∃ c, toCelsius v u = some c ∧ c ≠ JSNum.nan ∧
      (submit d now).thermHeight = numberToString (fillPercent c) ++ "%" ∧
      (submit d now).thermBackground = (setThermVisual d c).thermBackground) ∧
    convert (lit (1 / 10)) "F" "F" ≠ some (lit (1 / 10)) := by
  have hs := submit_same d now hraw (by rw [hv]; exact hnan) (by rw [hfrom, hto])
  obtain ⟨c, hc, hcn⟩ := toCelsius_some v u hu
  rw [hv, hfrom, hto, hc] at hs
  rw [hs]
  refine ⟨rfl, rfl, rfl, rfl, ⟨c, hc, hcn hnan, rfl, rfl⟩, by decide!⟩

/-- C3 instance: `100` with both units `F`. -/
theorem submit_identity_witness :
    (submit { sampleDom with input := "100", fromUnit := "F", toUnit := "F" } 0).frames =
      [Anim.mk 0 0 100 700] :=
  (submit_identity { sampleDom with input := "100", fromUnit := "F", toUnit := "F" } 0 100 "F"
    (by simp) rfl rfl (by decide!) (by decide!) (by decide!)).1

/-- C4: validation classifies every raw input text.  An empty or whitespace-only text
gives the missing-value error; any other text that `Number` maps to NaN gives the
invalid-number error; every other text is accepted, whatever its magnitude, and the
conversion proceeds (the error message is cleared and the result animation starts).  The
texts of the specification are evaluated on a page with units `C` and `F`. -/
theorem submit_validation (d : Dom) (now : JSNum) :
    ((∀ c ∈ d.input.data, isWhite c = true) → jsTrim d.input = "") ∧
    (jsTrim d.input = "" → submit d now =
      { d with message := missingValueMsg, result := "", inputFocused := true }) ∧
    (jsTrim d.input ≠ "" → stringToNumber (jsTrim d.input) = JSNum.nan → submit d now =
      { d with message := invalidNumberMsg, result := "", inputFocused := true }) ∧
    (jsTrim d.input ≠ "" → stringToNumber (jsTrim d.input) ≠ JSNum.nan →
      (submit d now).message = "" ∧ (submit d now).result = d.result ∧
      (submit d now).inputFocused = d.inputFocused ∧
      (submit d now).frames = d.frames ++
        [Anim.mk now (orZero (stringToNumber d.resultValue))
          (if d.fromUnit = d.toUnit then stringToNumber (jsTrim d.input)
           else toNumber (fromCelsius (toNumber (toCelsius (stringToNumber (jsTrim d.input))
             d.fromUnit)) d.toUnit)) 700]) ∧
    (jsTrim "" = "" ∧ jsTrim "   " = "" ∧ jsTrim " \t\n" = "") ∧
    (jsTrim "abc" ≠ "" ∧ stringToNumber (jsTrim "abc") = JSNum.nan) ∧
    (jsTrim "12x" ≠ "" ∧ stringToNumber (jsTrim "12x") = JSNum.nan) ∧
    (jsTrim "-40" ≠ "" ∧ stringToNumber (jsTrim "-40") = JSNum.fin (-40)) ∧
    (jsTrim "3.14" ≠ "" ∧ stringToNumber (jsTrim "3.14") = lit (314 / 100)) ∧
    (jsTrim "1e21" ≠ "" ∧ stringToNumber (jsTrim "1e21") = JSNum.fin (10 ^ 21)) ∧
    (jsTrim "-1e400" ≠ "" ∧ stringToNumber (jsTrim "-1e400") = JSNum.ninf) ∧
    (submit { sampleDom with input := "" } 0).message = missingValueMsg ∧
    (submit { sampleDom with input := "   " } 0).message = missingValueMsg ∧
    (submit { sampleDom with input := "abc" } 0).message = invalidNumberMsg ∧
    (submit { sampleDom with input := "12x" } 0).message = invalidNumberMsg ∧
    ((submit { sampleDom with input := "-40" } 0).message = "" ∧
      (submit { sampleDom with input := "-40" } 0).frames =
        [Anim.mk 0 0 (JSNum.fin (-40)) 700]) ∧
    ((submit { sampleDom with input := "3.14" } 0).message = "" ∧
      (submit { sampleDom with input := "3.14" } 0).frames =
        [Anim.mk 0 0 (lit (37652 / 1000)) 700]) := by
  refine ⟨?_, submit_missing d now, submit_invalid d now, ?_, by decide!, by decide!,
    by decide!, by decide!, by decide!, by decide!, by decide!, by decide!, by decide!,
    by decide!, by decide!, by decide!, by decide!⟩
  · intro h
    unfold jsTrim
    rw [trimChars_of_all_white _ h]
  · intro h hn
    by_cases hu : d.fromUnit = d.toUnit
    · rw [submit_same d now h hn hu, if_pos hu]
      exact ⟨rfl, rfl, rfl, rfl⟩
    · rw [submit_convert d now h hn hu, if_neg hu]
      exact ⟨rfl, rfl, rfl, rfl⟩

/-- What a valid submit does to the store. -/
theorem submit_store (d : Dom) (now : JSNum) (h : jsTrim d.input ≠ "")
    (hn : stringToNumber (jsTrim d.input) ≠ JSNum.nan) :
    (d.fromUnit = d.toUnit → (submit d now).store = d.store) ∧
    (d.fromUnit ≠ d.toUnit → (submit d now).store =
      some { value := jsonNumber (stringToNumber (jsTrim d.input)), fromU := d.fromUnit,
             toU := d.toUnit, live := d.liveToggle }) := by
  constructor
  · intro hu
    rw [submit_same d now h hn hu]
    rfl
  · intro hu
    rw [submit_convert d now h hn hu]
    rfl

/-- C5 at the failing input: a valid submit of `25` with both units `C` leaves the store
empty, while the same submit with units `C` and `F` writes the saved state.  In general a
valid submit with equal units never touches the store, and one with different units
always writes `{value, from, to, live}`. -/
theorem submit_same_unit_skips_persist :
    (submit { sampleDom with input := "25", fromUnit := "C", toUnit := "C" } 0).store = none ∧
    (submit { sampleDom with input := "25", fromUnit := "C", toUnit := "F" } 0).store =
      some { value := some 25, fromU := "C", toU := "F", live := false } ∧
    (∀ (d : Dom) (now : JSNum), jsTrim d.input ≠ "" →
      stringToNumber (jsTrim d.input) ≠ JSNum.nan → d.fromUnit = d.toUnit →
      (submit d now).store = d.store) ∧
    (∀ (d : Dom) (now : JSNum), jsTrim d.input ≠ "" →
      stringToNumber (jsTrim d.input) ≠ JSNum.nan → d.fromUnit ≠ d.toUnit →
      (submit d now).store =
        some { value := jsonNumber (stringToNumber (jsTrim d.input)), fromU := d.fromUnit,
               toU := d.toUnit, live := d.liveToggle }) :=
  ⟨by decide!, by decide!, fun d now h hn hu => (submit_store d now h hn).1 hu,
    fun d now h hn hu => (submit_store d now h hn).2 hu⟩

/-! ### Slider range and restore (C8, C6) -/

theorem numberToString_bounds :
    numberToString (JSNum.fin (-50)) = "-50" ∧ numberToString 80 = "80" ∧
    numberToString (JSNum.fin (-58)) = "-58" ∧ numberToString 176 = "176" ∧
    numberToString 0 = "0" ∧ numberToString 353 = "353" := by decide!

theorem stringToNumber_bounds :
    stringToNumber "-50" = JSNum.fin (-50) ∧ stringToNumber "80" = JSNum.fin 80 ∧
    stringToNumber "-58" = JSNum.fin (-58) ∧ stringToNumber "176" = JSNum.fin 176 ∧
    stringToNumber "0" = JSNum.fin 0 ∧ stringToNumber "353" = JSNum.fin 353 := by decide!

/-- The two clamping statements of `adjustRangeForUnit` on a numeric slider value. -/
theorem adjustRange_clamp (d : Dom) (smin smax : String) (lo hi : ℚ)
    (hmin : stringToNumber smin = JSNum.fin lo) (hmax : stringToNumber smax = JSNum.fin hi)
    (hle : lo ≤ hi) (hv : stringToNumber d.rangeValue ≠ JSNum.nan) :
    let x := stringToNumber d.rangeValue
    let d1 : Dom := { d with rangeMin := smin, rangeMax := smax }
    let d2 : Dom := if lt (stringToNumber d1.rangeValue) (stringToNumber d1.rangeMin)
      then { d1 with rangeValue := d1.rangeMin } else d1
    let d3 : Dom := if lt (stringToNumber d2.rangeMax) (stringToNumber d2.rangeValue)
      then { d2 with rangeValue := d2.rangeMax } else d2
    lt (stringToNumber d3.rangeValue) (JSNum.fin lo) = false ∧
    lt (JSNum.fin hi) (stringToNumber d3.rangeValue) = false ∧
    stringToNumber d3.rangeValue ≠ JSNum.nan ∧
    (lt x (JSNum.fin lo) = false → lt (JSNum.fin hi) x = false → d3.rangeValue = d.rangeValue) ∧
    (lt x (JSNum.fin lo) = true → d3.rangeValue = smin) ∧
    (lt (JSNum.fin hi) x = true → d3.rangeValue = smax) ∧
    d3.rangeMin = smin ∧ d3.rangeMax = smax := by
  intro x d1 d2 d3
  have hx : stringToNumber d.rangeValue = x := rfl
  by_cases h1 : lt x (JSNum.fin lo) = true
  · have e2 : d2 = { d1 with rangeValue := smin } := by
      simp only [d2, d1, hx, hmin, h1, if_true]
    have h3 : lt (JSNum.fin hi) (JSNum.fin lo) = false := by
      simp [lt, not_lt.mpr hle]
    have e3 : d3 = { d1 with rangeValue := smin } := by
      simp only [d3, e2, d1, hmax, hmin, h3]; simp
    rw [e3]
    simp only [hmin, hmax, h3]
    refine ⟨by simp [lt], trivial, by simp, ?_, fun _ => trivial, ?_, trivial, trivial⟩
    · intro h; rw [h] at h1; exact absurd h1 (by simp)
    · intro h
      exfalso
      cases hxx : x <;> rw [hxx] at h1 h <;> simp [lt] at h1 h
      linarith
  · have h1f : lt x (JSNum.fin lo) = false := by simpa using h1
    have e2 : d2 = d1 := by
      simp only [d2, d1, hx, hmin, h1f]; simp
    by_cases h2 : lt (JSNum.fin hi) x = true
    · have e3 : d3 = { d1 with rangeValue := smax } := by
        simp only [d3, e2, d1, hmax, hx, h2, if_true]
      rw [e3]
      simp only [hmax]
      refine ⟨by simp [lt, not_lt.mpr hle], by simp [lt], by simp, ?_, ?_, fun _ => trivial, trivial, trivial⟩
      · intro _ h; rw [h] at h2; exact absurd h2 (by simp)
      · intro h; rw [h] at h1; exact absurd rfl h1
    · have h2f : lt (JSNum.fin hi) x = false := by simpa using h2
      have e3 : d3 = d1 := by
        simp only [d3, e2, d1, hmax, hx, h2f]; simp
      rw [e3]
      refine ⟨h1f, h2f, hv, fun _ _ => rfl, ?_, ?_, rfl, rfl⟩
      · intro h; rw [h] at h1f; exact absurd h1f (by simp)
      · intro h; rw [h] at h2f; exact absurd h2f (by simp)

/-- For the three units `adjustRangeForUnit` sets the bounds, clamps, and reflects the
slider into the text field. -/
theorem adjustRange_eq (d : Dom) (u smin smax : String) (lo hi : ℚ)
    (hu : (u, smin, smax, lo, hi) ∈
      [("C", "-50", "80", (-50 : ℚ), (80 : ℚ)), ("F", "-58", "176", -58, 176),
       ("K", "0", "353", 0, 353)]) :
    stringToNumber smin = JSNum.fin lo ∧ stringToNumber smax = JSNum.fin hi ∧ lo ≤ hi ∧
    adjustRangeForUnit d u =
      (let d1 : Dom := { d with rangeMin := smin, rangeMax := smax }
       let d2 : Dom := if lt (stringToNumber d1.rangeValue) (stringToNumber d1.rangeMin)
         then { d1 with rangeValue := d1.rangeMin } else d1
       let d3 : Dom := if lt (stringToNumber d2.rangeMax) (stringToNumber d2.rangeValue)
         then { d2 with rangeValue := d2.rangeMax } else d2
       { d3 with input := d3.rangeValue }) := by
  obtain ⟨n1, n2, n3, n4, n5, n6⟩ := numberToString_bounds
  obtain ⟨s1, s2, s3, s4, s5, s6⟩ := stringToNumber_bounds
  simp only [List.mem_cons, Prod.mk.injEq, List.mem_singleton, List.mem_nil_iff, or_false] at hu
  rcases hu with ⟨rfl, rfl, rfl, rfl, rfl⟩ | ⟨rfl, rfl, rfl, rfl, rfl⟩ | ⟨rfl, rfl, rfl, rfl, rfl⟩
  · refine ⟨s1, s2, by norm_num, ?_⟩
    simp [adjustRangeForUnit, n1, n2]
  · refine ⟨s3, s4, by norm_num, ?_⟩
    simp [adjustRangeForUnit, n3, n4]
  · refine ⟨s5, s6, by norm_num, ?_⟩
    simp [adjustRangeForUnit, n5, n6]

/-- C8: for each unit `u` of `C`, `F`, `K` and every slider state holding a numeric value,
`adjustRangeForUnit(u)` sets the bounds to the domain of the unit (`C` `[-50, 80]`,
`F` `[-58, 176]`, `K` `[0, 353]`) and leaves the slider value inside the new bounds:
unchanged when it was inside, the lower bound when it was below, the upper bound when it
was above. -/
theorem adjustRangeForUnit_clamps (d : Dom) (u smin smax : String) (lo hi : ℚ)
    (hu : (u, smin, smax, lo, hi) ∈
      [("C", "-50", "80", (-50 : ℚ), (80 : ℚ)), ("F", "-58", "176", -58, 176),
       ("K", "0", "353", 0, 353)])
    (hv : stringToNumber d.rangeValue ≠ JSNum.nan) :
    (adjustRangeForUnit d u).rangeMin = smin ∧ (adjustRangeForUnit d u).rangeMax = smax ∧
    stringToNumber smin = JSNum.fin lo ∧ stringToNumber smax = JSNum.fin hi ∧
    stringToNumber (adjustRangeForUnit d u).rangeValue ≠ JSNum.nan ∧
    lt (stringToNumber (adjustRangeForUnit d u).rangeValue) (JSNum.fin lo) = false ∧
    lt (JSNum.fin hi) (stringToNumber (adjustRangeForUnit d u).rangeValue) = false ∧
    (lt (stringToNumber d.rangeValue) (JSNum.fin lo) = false →
      lt (JSNum.fin hi) (stringToNumber d.rangeValue) = false →
      (adjustRangeForUnit d u).rangeValue = d.rangeValue) ∧
    (lt (stringToNumber d.rangeValue) (JSNum.fin lo) = true →
      (adjustRangeForUnit d u).rangeValue = smin) ∧
    (lt (JSNum.fin hi) (stringToNumber d.rangeValue) = true →
      (adjustRangeForUnit d u).rangeValue = smax) := by
  obtain ⟨hmin, hmax, hle, he⟩ := adjustRange_eq d u smin smax lo hi hu
  obtain ⟨c1, c2, c3, c4, c5, c6, c7, c8⟩ := adjustRange_clamp d smin smax lo hi hmin hmax hle hv
  rw [he]
  exact ⟨c7, c8, hmin, hmax, c3, c1, c2, c4, c5, c6⟩

/-- C8 instance: a slider at `200` switched to Fahrenheit is clamped to `176`. -/
theorem adjustRangeForUnit_clamps_witness :
    (adjustRangeForUnit { sampleDom with rangeValue := "200" } "F").rangeValue = "176" :=
  (adjustRangeForUnit_clamps { sampleDom with rangeValue := "200" } "F" "-58" "176" (-58) 176
    (by simp) (by decide!)).2.2.2.2.2.2.2.2.2 (by decide!)

theorem adjustRange_input (d : Dom) (u : String) :
    (adjustRangeForUnit d u).input = (adjustRangeForUnit d u).rangeValue := by
  unfold adjustRangeForUnit
  rfl

theorem adjustRange_frame (d : Dom) (u : String) :
    (adjustRangeForUnit d u).fromUnit = d.fromUnit ∧
    (adjustRangeForUnit d u).toUnit = d.toUnit ∧
    (adjustRangeForUnit d u).liveToggle = d.liveToggle := by
  simp only [adjustRangeForUnit, apply_ite Dom.fromUnit, apply_ite Dom.toUnit,
    apply_ite Dom.liveToggle, ite_self, and_self]

theorem adjustRange_rangeValue (d : Dom) (u i f t : String) (l : Bool) :
    (adjustRangeForUnit { d with input := i, fromUnit := f, toUnit := t, liveToggle := l }
      u).rangeValue = (adjustRangeForUnit d u).rangeValue := by
  simp only [adjustRangeForUnit, apply_ite Dom.rangeValue, apply_ite Dom.rangeMin,
    apply_ite Dom.rangeMax]

theorem restore_some (d d1 : Dom) (last : SavedState) (h : d.store = some last)
    (h1 : d1 = { d with
                 input := inputValueOf last.value,
                 fromUnit := last.fromU,
                 toUnit := last.toU,
                 liveToggle := last.live }) :
    restore d = { adjustRangeForUnit d1 last.fromU with
                  rangeValue := (adjustRangeForUnit d1 last.fromU).input } := by
  subst h1
  cases d
  simp only at h
  subst h
  rfl

/-- With a saved state the start-up block restores units and toggle, and the text field
ends as the clamped slider value. -/
theorem restore_input (d : Dom) (last : SavedState) (h : d.store = some last) :
    (restore d).fromUnit = last.fromU ∧ (restore d).toUnit = last.toU ∧
    (restore d).liveToggle = last.live ∧
    (restore d).input = (adjustRangeForUnit d last.fromU).rangeValue := by
  obtain ⟨d1, h1⟩ : ∃ d1 : Dom, d1 = { d with
                 input := inputValueOf last.value,
                 fromUnit := last.fromU,
                 toUnit := last.toU,
                 liveToggle := last.live } := ⟨_, rfl⟩
  have hf := adjustRange_frame d1 last.fromU
  have hi := adjustRange_input d1 last.fromU
  have hr := adjustRange_rangeValue d last.fromU (inputValueOf last.value) last.fromU last.toU
    last.live
  rw [← h1] at hr
  have e1 : d1.fromUnit = last.fromU := by rw [h1]
  have e2 : d1.toUnit = last.toU := by rw [h1]
  have e3 : d1.liveToggle = last.live := by rw [h1]
  rw [restore_some d d1 last h h1]
  generalize adjustRangeForUnit d1 last.fromU = A at hf hi hr
  exact ⟨hf.1.trans e1, hf.2.1.trans e2, hf.2.2.trans e3, hi.trans hr⟩

/-- C6 at the failing input: after a conversion of `25` from `C` to `F` with the live
toggle on is saved, the start-up block run on a fresh page (empty text field, slider at
`50`) restores the units and the toggle but leaves the slider value `50` in the text
field, not the saved `25`; without a saved state the text field also ends as `50`,
not empty.  In general the restored text field holds the clamped slider value, whatever
value was saved. -/
theorem restore_overwrites_input :
    (submit { sampleDom with input := "25", liveToggle := true } 0).store =
      some { value := some 25, fromU := "C", toU := "F", live := true } ∧
    (restore { sampleDom with
        store := (submit { sampleDom with input := "25", liveToggle := true } 0).store }).input
      = "50" ∧
    (restore { sampleDom with
        store := (submit { sampleDom with input := "25", liveToggle := true } 0).store }).fromUnit
      = "C" ∧
    (restore { sampleDom with
        store := (submit { sampleDom with input := "25", liveToggle := true } 0).store }).toUnit
      = "F" ∧
    (restore { sampleDom with
        store := (submit { sampleDom with input := "25", liveToggle := true } 0).store }).liveToggle
      = true ∧
    sampleDom.input = "" ∧ (restore sampleDom).input = "50" ∧
    (∀ (d : Dom) (last : SavedState), d.store = some last →
      (restore d).fromUnit = last.fromU ∧ (restore d).toUnit = last.toU ∧
      (restore d).liveToggle = last.live ∧
      (restore d).input = (adjustRangeForUnit d last.fromU).rangeValue) :=
  ⟨by decide!, by decide!, by decide!, by decide!, by decide!, by decide!, by decide!,
    restore_input⟩

end Script
